import Mathlib

/-! networker: a fluent HTTP request builder

A shallow embedding of `networker.go`.  A `*Request` that the Go code mutates in
place is threaded through explicitly: every method takes the request state and
returns the new one.  A run-time panic of the Go code is a value of `Panic`, in
the error side of `Except`.

Go maps are association lists whose keys are pairwise distinct (`KeysNodup`);
the nil map is `none`.  The order of a list stands for the order in which
`range` happens to visit the map, which Go leaves unspecified; results are
stated for every list, hence for every order.

Byte slices that the package builds are conversions of strings, and are
represented by the text they hold.  The keys and values of `url.Values` are
kept as bytes: unescaping a query can give bytes that are not UTF-8.
-/

namespace Networker

/-! ## Go maps -/

/-- The method `m[k]` with the comma-ok form: the value stored under `k`. -/
def mapGet {α : Type} : List (String × α) → String → Option α
  | [], _ => none
  | (k1, v1) :: t, k => if k1 = k then some v1 else mapGet t k

/-- The assignment `m[k] = v` on a map that is not nil. -/
def mapSet {α : Type} : List (String × α) → String → α → List (String × α)
  | [], k, v => [(k, v)]
  | (k1, v1) :: t, k, v => if k1 = k then (k, v) :: t else (k1, v1) :: mapSet t k v

/-- The loop `for k, v := range params { m[k] = v }`. -/
def mapMerge {α : Type} (m params : List (String × α)) : List (String × α) :=
  params.foldl (fun acc kv => mapSet acc kv.1 kv.2) m

/-- The first of two optional values that is present. -/
def firstSome {α : Type} (a b : Option α) : Option α :=
  match a with
  | some v => some v
  | none => b

/-- Keys of a Go map are pairwise distinct. -/
def KeysNodup {α : Type} (m : List (String × α)) : Prop :=
  (m.map Prod.fst).Nodup

instance {α : Type} (m : List (String × α)) : Decidable (KeysNodup m) := by
  unfold KeysNodup; infer_instance

/-- A map that may be nil. -/
abbrev GoMap (α : Type) := Option (List (String × α))

/-- Reading `m[k]`; a nil map has no entry. -/
def GoMap.get {α : Type} (m : GoMap α) (k : String) : Option α :=
  match m with
  | none => none
  | some l => mapGet l k

/-- The entries `range m` visits; none for a nil map. -/
def GoMap.entries {α : Type} (m : GoMap α) : List (String × α) :=
  match m with
  | none => []
  | some l => l

/-- Well-formedness of a map that may be nil. -/
def GoMap.WF {α : Type} (m : GoMap α) : Prop :=
  KeysNodup m.entries

instance {α : Type} (m : GoMap α) : Decidable (GoMap.WF m) := by
  unfold GoMap.WF; infer_instance

/-! ## Values behind `interface{}` -/

/-- One field of a struct value as reflection shows it: its name, whether it is
exported, and its value. -/
structure Field (α : Type) where
  name : String
  exported : Bool
  value : α

/-- The dynamic values a caller can hand to `Body`, by `reflect.Kind`:
`nil` has kind Invalid, `bool` and `int` stand for the kinds the switch in
`Body` does not list, `str` has kind String, `struct` kind Struct, and `mapSI`
and `mapSS` both have kind Map: `mapSI` is a `map[string]interface{}`,
`mapSS` a `map[string]string`. -/
inductive GoValue where
  | nil
  | bool (b : Bool)
  | int (n : Int)
  | str (s : String)
  | struct (fields : List (Field GoValue))
  | mapSI (m : Option (List (String × GoValue)))
  | mapSS (m : Option (List (String × String)))

/-- The ways the package can panic. -/
inductive Panic where
  /-- assignment to entry in nil map -/
  | nilMapAssignment
  /-- interface conversion: a type assertion without comma-ok failed -/
  | interfaceConversion
  /-- reflect.Value.Interface on a value obtained from an unexported field -/
  | unexportedField
  /-- reflect: NumField of a type that is not a struct -/
  | notAStruct
  deriving DecidableEq, Repr

/-! ## The standard library functions the package calls

These are models of `strings`, `fmt`, `encoding/json`, `net/url`,
`encoding/base64` and `net/textproto`, written from their documentation. -/

/-- The UTF-8 bytes of a character. -/
def utf8Bytes (c : Char) : List Nat :=
  let n := c.toNat
  if n < 0x80 then [n]
  else if n < 0x800 then [0xC0 + n / 64, 0x80 + n % 64]
  else if n < 0x10000 then [0xE0 + n / 4096, 0x80 + n / 64 % 64, 0x80 + n % 64]
  else [0xF0 + n / 262144, 0x80 + n / 4096 % 64, 0x80 + n / 64 % 64, 0x80 + n % 64]

/-- The conversion `[]byte(s)`, as byte values. -/
def stringBytes (s : String) : List Nat :=
  s.data.flatMap utf8Bytes

/-- The order of Go strings, which `sort.Strings` uses: lexicographic on the
bytes. -/
def bytesLE : List Nat → List Nat → Bool
  | [], _ => true
  | _ :: _, [] => false
  | a :: as, b :: bs =>
    if a < b then true
    else if b < a then false
    else bytesLE as bs

def keyLE (a b : String) : Prop := bytesLE (stringBytes a) (stringBytes b) = true

instance : DecidableRel keyLE := fun a b => by unfold keyLE; infer_instance

/-- Sorting of a list of keys given as bytes, as `sort.Strings` does. -/
def sortKeys (ks : List (List Nat)) : List (List Nat) :=
  ks.insertionSort (fun a b => bytesLE a b = true)

/-- Entries of a map in ascending key order. -/
def sortByKey {α : Type} (m : List (String × α)) : List (String × α) :=
  m.insertionSort (fun a b => keyLE a.1 b.1)

/-- The lower-case mappings of the Unicode character database outside ASCII
(simple mappings, table of version 14.0), as runs `(lo, hi, stride, to)`: the
code points `lo`, `lo + stride`, ... up to `hi` map to `to`, `to + stride`,
...  It is the data behind the `CaseRanges` table of Go's `unicode` package. -/
def unicode.lowerRanges : List (Nat × Nat × Nat × Nat) :=
  [(192, 214, 1, 224), (216, 222, 1, 248), (256, 302, 2, 257), (304, 304, 1, 105),
   (306, 310, 2, 307), (313, 327, 2, 314), (330, 374, 2, 331), (376, 376, 1, 255),
   (377, 381, 2, 378), (385, 385, 1, 595), (386, 388, 2, 387), (390, 390, 1, 596),
   (391, 391, 1, 392), (393, 394, 1, 598), (395, 395, 1, 396), (398, 398, 1, 477),
   (399, 399, 1, 601), (400, 400, 1, 603), (401, 401, 1, 402), (403, 403, 1, 608),
   (404, 404, 1, 611), (406, 406, 1, 617), (407, 407, 1, 616), (408, 408, 1, 409),
   (412, 412, 1, 623), (413, 413, 1, 626), (415, 415, 1, 629), (416, 420, 2, 417),
   (422, 422, 1, 640), (423, 423, 1, 424), (425, 425, 1, 643), (428, 428, 1, 429),
   (430, 430, 1, 648), (431, 431, 1, 432), (433, 434, 1, 650), (435, 437, 2, 436),
   (439, 439, 1, 658), (440, 440, 1, 441), (444, 444, 1, 445), (452, 452, 1, 454),
   (453, 453, 1, 454), (455, 455, 1, 457), (456, 456, 1, 457), (458, 458, 1, 460),
   (459, 475, 2, 460), (478, 494, 2, 479), (497, 497, 1, 499), (498, 500, 2, 499),
   (502, 502, 1, 405), (503, 503, 1, 447), (504, 542, 2, 505), (544, 544, 1, 414),
   (546, 562, 2, 547), (570, 570, 1, 11365), (571, 571, 1, 572), (573, 573, 1, 410),
   (574, 574, 1, 11366), (577, 577, 1, 578), (579, 579, 1, 384), (580, 580, 1, 649),
   (581, 581, 1, 652), (582, 590, 2, 583), (880, 882, 2, 881), (886, 886, 1, 887),
   (895, 895, 1, 1011), (902, 902, 1, 940), (904, 906, 1, 941), (908, 908, 1, 972),
   (910, 911, 1, 973), (913, 929, 1, 945), (931, 939, 1, 963), (975, 975, 1, 983),
   (984, 1006, 2, 985), (1012, 1012, 1, 952), (1015, 1015, 1, 1016), (1017, 1017, 1, 1010),
   (1018, 1018, 1, 1019), (1021, 1023, 1, 891), (1024, 1039, 1, 1104), (1040, 1071, 1, 1072),
   (1120, 1152, 2, 1121), (1162, 1214, 2, 1163), (1216, 1216, 1, 1231), (1217, 1229, 2, 1218),
   (1232, 1326, 2, 1233), (1329, 1366, 1, 1377), (4256, 4293, 1, 11520), (4295, 4295, 1, 11559),
   (4301, 4301, 1, 11565), (5024, 5103, 1, 43888), (5104, 5109, 1, 5112), (7312, 7354, 1, 4304),
   (7357, 7359, 1, 4349), (7680, 7828, 2, 7681), (7838, 7838, 1, 223), (7840, 7934, 2, 7841),
   (7944, 7951, 1, 7936), (7960, 7965, 1, 7952), (7976, 7983, 1, 7968), (7992, 7999, 1, 7984),
   (8008, 8013, 1, 8000), (8025, 8031, 2, 8017), (8040, 8047, 1, 8032), (8072, 8079, 1, 8064),
   (8088, 8095, 1, 8080), (8104, 8111, 1, 8096), (8120, 8121, 1, 8112), (8122, 8123, 1, 8048),
   (8124, 8124, 1, 8115), (8136, 8139, 1, 8050), (8140, 8140, 1, 8131), (8152, 8153, 1, 8144),
   (8154, 8155, 1, 8054), (8168, 8169, 1, 8160), (8170, 8171, 1, 8058), (8172, 8172, 1, 8165),
   (8184, 8185, 1, 8056), (8186, 8187, 1, 8060), (8188, 8188, 1, 8179), (8486, 8486, 1, 969),
   (8490, 8490, 1, 107), (8491, 8491, 1, 229), (8498, 8498, 1, 8526), (8544, 8559, 1, 8560),
   (8579, 8579, 1, 8580), (9398, 9423, 1, 9424), (11264, 11311, 1, 11312),
   (11360, 11360, 1, 11361), (11362, 11362, 1, 619), (11363, 11363, 1, 7549),
   (11364, 11364, 1, 637), (11367, 11371, 2, 11368), (11373, 11373, 1, 593),
   (11374, 11374, 1, 625), (11375, 11375, 1, 592), (11376, 11376, 1, 594),
   (11378, 11378, 1, 11379), (11381, 11381, 1, 11382), (11390, 11391, 1, 575),
   (11392, 11490, 2, 11393), (11499, 11501, 2, 11500), (11506, 11506, 1, 11507),
   (42560, 42604, 2, 42561), (42624, 42650, 2, 42625), (42786, 42798, 2, 42787),
   (42802, 42862, 2, 42803), (42873, 42875, 2, 42874), (42877, 42877, 1, 7545),
   (42878, 42886, 2, 42879), (42891, 42891, 1, 42892), (42893, 42893, 1, 613),
   (42896, 42898, 2, 42897), (42902, 42920, 2, 42903), (42922, 42922, 1, 614),
   (42923, 42923, 1, 604), (42924, 42924, 1, 609), (42925, 42925, 1, 620), (42926, 42926, 1, 618),
   (42928, 42928, 1, 670), (42929, 42929, 1, 647), (42930, 42930, 1, 669),
   (42931, 42931, 1, 43859), (42932, 42946, 2, 42933), (42948, 42948, 1, 42900),
   (42949, 42949, 1, 642), (42950, 42950, 1, 7566), (42951, 42953, 2, 42952),
   (42960, 42960, 1, 42961), (42966, 42968, 2, 42967), (42997, 42997, 1, 42998),
   (65313, 65338, 1, 65345), (66560, 66599, 1, 66600), (66736, 66771, 1, 66776),
   (66928, 66938, 1, 66967), (66940, 66954, 1, 66979), (66956, 66962, 1, 66995),
   (66964, 66965, 1, 67003), (68736, 68786, 1, 68800), (71840, 71871, 1, 71872),
   (93760, 93791, 1, 93792), (125184, 125217, 1, 125218)]

/-- The function `unicode.ToLower`: A to Z are folded in ASCII, the table gives
the mapping elsewhere, and a rune without a mapping is returned as it is. -/
def unicode.ToLower (c : Char) : Char :=
  if c.toNat < 128 then c.toLower
  else
    match unicode.lowerRanges.find?
      (fun e => e.1 ≤ c.toNat ∧ c.toNat ≤ e.2.1 ∧ (c.toNat - e.1) % e.2.2.1 = 0) with
    | some e => Char.ofNat (e.2.2.2 + (c.toNat - e.1))
    | none => c

/-- The function `strings.ToLower`: `unicode.ToLower` on every rune. -/
def strings.ToLower (s : String) : String :=
  String.mk (s.data.map unicode.ToLower)

mutual
/-- The text `fmt.Sprintf("%v", v)` produces. -/
def fmt.Sprintf_v : GoValue → String
  | .nil => "<nil>"
  | .bool b => if b then "true" else "false"
  | .int n => toString n
  | .str s => s
  | .struct fs => "\x7b" ++ " ".intercalate (fmt.fieldTexts fs) ++ "\x7d"
  | .mapSI none => "map[]"
  | .mapSI (some m) => "map[" ++ " ".intercalate (sortByKey (fmt.entryTexts m) |>.map
      (fun kv => kv.1 ++ ":" ++ kv.2)) ++ "]"
  | .mapSS m => "map[" ++ " ".intercalate (sortByKey (GoMap.entries m) |>.map
      (fun kv => kv.1 ++ ":" ++ kv.2)) ++ "]"
/-- Texts of the field values of a struct, in declaration order. -/
def fmt.fieldTexts : List (Field GoValue) → List String
  | [] => []
  | f :: fs => fmt.Sprintf_v f.value :: fmt.fieldTexts fs
/-- Keys of a map with the text of each value. -/
def fmt.entryTexts : List (String × GoValue) → List (String × String)
  | [] => []
  | (k, v) :: es => (k, fmt.Sprintf_v v) :: fmt.entryTexts es
end

/-- One hexadecimal digit, lower case. -/
def hexLower (n : Nat) : Char :=
  "0123456789abcdef".data.getD n '0'

/-- How `encoding/json` writes one character of a string, HTML escaping on. -/
def json.escapeChar (c : Char) : String :=
  if c = '"' then "\\\""
  else if c = '\\' then "\\\\"
  else if c.toNat = 8 then "\\b"
  else if c.toNat = 12 then "\\f"
  else if c = '\n' then "\\n"
  else if c = '\r' then "\\r"
  else if c = '\t' then "\\t"
  else if c.toNat < 32 ∨ c = '<' ∨ c = '>' ∨ c = '&' then
    String.mk ['\\', 'u', '0', '0', hexLower (c.toNat / 16), hexLower (c.toNat % 16)]
  else if c.toNat = 0x2028 then "\\u2028"
  else if c.toNat = 0x2029 then "\\u2029"
  else String.mk [c]

/-- A JSON string literal. -/
def json.quote (s : String) : String :=
  "\"" ++ String.join (s.data.map json.escapeChar) ++ "\""

mutual
/-- The JSON encoding of a value. -/
def json.encode : GoValue → String
  | .nil => "null"
  | .bool b => if b then "true" else "false"
  | .int n => toString n
  | .str s => json.quote s
  | .struct fs => "\x7b" ++ ",".intercalate (json.encodeFields fs) ++ "\x7d"
  | .mapSI none => "null"
  | .mapSI (some m) => "\x7b" ++ ",".intercalate (sortByKey (json.encodeEntries m) |>.map
      (fun kv => json.quote kv.1 ++ ":" ++ kv.2)) ++ "\x7d"
  | .mapSS none => "null"
  | .mapSS (some m) => "\x7b" ++ ",".intercalate (sortByKey m |>.map
      (fun kv => json.quote kv.1 ++ ":" ++ json.quote kv.2)) ++ "\x7d"
/-- Members for the exported fields of a struct, in declaration order. -/
def json.encodeFields : List (Field GoValue) → List String
  | [] => []
  | f :: fs =>
    if f.exported then (json.quote f.name ++ ":" ++ json.encode f.value) :: json.encodeFields fs
    else json.encodeFields fs
/-- Keys of a map with the encoding of each value. -/
def json.encodeEntries : List (String × GoValue) → List (String × String)
  | [] => []
  | (k, v) :: es => (k, json.encode v) :: json.encodeEntries es
end

/-- The call `json.Marshal(m)` on a `map[string]interface{}`, its error
dropped.  No value of `GoValue` makes the encoder fail. -/
def json.Marshal (m : GoMap GoValue) : String :=
  json.encode (.mapSI m)

/-- The text of bytes that are all ASCII. -/
def asciiString (bs : List Nat) : String :=
  String.mk (bs.map Char.ofNat)

/-- The bytes `url.QueryEscape` leaves as they are: the ASCII letters and
digits, and the marks - _ . ~ -/
def url.unreserved (b : Nat) : Bool :=
  (48 ≤ b && b ≤ 57) || (65 ≤ b && b ≤ 90) || (97 ≤ b && b ≤ 122) ||
    b = 45 || b = 95 || b = 46 || b = 126

/-- The byte of one hexadecimal digit, upper case: 0 to 9, then A to F. -/
def url.hexDigit (n : Nat) : Nat :=
  if n < 10 then 48 + n else 55 + n

/-- How `url.QueryEscape` writes one byte: as it is, a space as a plus sign,
any other byte as a percent sign and two hexadecimal digits. -/
def url.escapeByte (b : Nat) : List Nat :=
  if url.unreserved b then [b]
  else if b = 32 then [43]
  else [37, url.hexDigit (b / 16), url.hexDigit (b % 16)]

def url.escapeBytes (s : List Nat) : List Nat :=
  s.flatMap url.escapeByte

/-- The function `url.QueryEscape`, on the bytes of its argument. -/
def url.QueryEscape (s : List Nat) : String :=
  asciiString (url.escapeBytes s)

/-- The value of the byte of a hexadecimal digit of either case. -/
def url.unhex (b : Nat) : Option Nat :=
  if 48 ≤ b ∧ b ≤ 57 then some (b - 48)
  else if 97 ≤ b ∧ b ≤ 102 then some (b - 87)
  else if 65 ≤ b ∧ b ≤ 70 then some (b - 55)
  else none

/-- The function `url.QueryUnescape`, on bytes: a percent sign must be
followed by two hexadecimal digits and stands for their byte, a plus sign
stands for a space; `none` is the error. -/
def url.unescapeBytes : List Nat → Option (List Nat)
  | [] => some []
  | b :: rest =>
    if b = 37 then
      match rest with
      | h1 :: h2 :: rest2 =>
        match url.unhex h1, url.unhex h2, url.unescapeBytes rest2 with
        | some hi, some lo, some t => some ((hi * 16 + lo) :: t)
        | _, _, _ => none
      | _ => none
    else if b = 43 then (url.unescapeBytes rest).map (fun t => 32 :: t)
    else (url.unescapeBytes rest).map (fun t => b :: t)

/-- The type `url.Values`, a `map[string][]string`, keys and values as bytes. -/
abbrev url.Values := List (List Nat × List (List Nat))

/-- The read `v[key]`, nil when the key is absent. -/
def url.Values.get : url.Values → List Nat → List (List Nat)
  | [], _ => []
  | (k1, vs) :: t, key => if k1 = key then vs else url.Values.get t key

/-- The method `Add`: `v[key] = append(v[key], value)`. -/
def url.Values.Add : url.Values → List Nat → List Nat → url.Values
  | [], key, value => [(key, [value])]
  | (k1, vs) :: t, key, value =>
    if k1 = key then (k1, vs ++ [value]) :: t else (k1, vs) :: url.Values.Add t key value

/-- The pieces `key=value` that `Encode` joins, keys ascending. -/
def url.Values.pieces (v : url.Values) : List String :=
  (sortKeys (v.map Prod.fst)).flatMap (fun k =>
    (url.Values.get v k).map (fun x => url.QueryEscape k ++ "=" ++ url.QueryEscape x))

def url.Values.Encode (v : url.Values) : String :=
  "&".intercalate (url.Values.pieces v)

/-- The pieces of a string between the occurrences of a separator byte. -/
def splitBytes (sep : Nat) : List Nat → List (List Nat)
  | [] => [[]]
  | b :: rest =>
    if b = sep then [] :: splitBytes sep rest
    else
      match splitBytes sep rest with
      | [] => [[b]]
      | seg :: segs => (b :: seg) :: segs

/-- The function `strings.Cut` with a separator of one byte: what stands
before the first occurrence and what stands after it. -/
def cutBytes (sep : Nat) (s : List Nat) : List Nat × List Nat :=
  (s.takeWhile (fun b => b != sep), (s.dropWhile (fun b => b != sep)).drop 1)

/-- One turn of the loop of `url.ParseQuery`, on the piece between two
ampersands: a piece with a semicolon, an empty piece, and a piece whose key or
value does not unescape are skipped; the others are added. -/
def url.parsePair (m : url.Values) (seg : List Nat) : url.Values :=
  if 59 ∈ seg then m
  else if seg = [] then m
  else
    match url.unescapeBytes (cutBytes 61 seg).1, url.unescapeBytes (cutBytes 61 seg).2 with
    | some k, some v => url.Values.Add m k v
    | _, _ => m

/-- The values `url.ParseQuery` returns, its error dropped: what
`(*URL).Query()` gives for a raw query. -/
def url.ParseQuery (query : String) : url.Values :=
  (splitBytes 38 (stringBytes query)).foldl url.parsePair []

/-! ## The data model of `networker.go` -/

abbrev ContentType := Int

def JSON : ContentType := 0
def XML : ContentType := 1
def TEXT : ContentType := 2
def FORM : ContentType := 3

def GET : String := "GET"
def HEAD : String := "HEAD"
def POST : String := "POST"
def PUT : String := "PUT"
def DELETE : String := "DELETE"
def PATCH : String := "PATCH"
def OPTIONS : String := "OPTIONS"

structure Request where
  url : String
  method : String
  headers : GoMap String
  cookies : GoMap String
  query : GoMap String
  ctype : ContentType
  data : GoMap GoValue
  raw_data : String
  authUsername : String
  authPassword : String
  isUseBaseAuth : Bool

/-- The zero value `Request{}`, which every composite literal below starts
from. -/
def Request.zero : Request :=
  { url := "", method := "", headers := none, cookies := none, query := none,
    ctype := 0, data := none, raw_data := "", authUsername := "",
    authPassword := "", isUseBaseAuth := false }

/-! ## Mutators -/

def Request.Url (r : Request) (url : String) : Request :=
  { r with url := url }

def Request.Header (r : Request) (key value : String) : Except Panic Request :=
  match r.headers with
  | none => .error .nilMapAssignment
  | some h => .ok { r with headers := some (mapSet h key value) }

def Request.Query (r : Request) (params : GoMap String) : Request :=
  match r.query with
  | some q => { r with query := some (mapMerge q params.entries) }
  | none => { r with query := params }

def Request.Cookie (r : Request) (key value : String) : Except Panic Request :=
  match r.cookies with
  | none => .error .nilMapAssignment
  | some c => .ok { r with cookies := some (mapSet c key value) }

def Request.BaseAuth (r : Request) (username password : String) : Request :=
  { r with authUsername := username, authPassword := password, isUseBaseAuth := true }

def Request.addDataAsMap (r : Request) (params : GoMap GoValue) : Request :=
  match r.data with
  | some d => { r with data := some (mapMerge d params.entries) }
  | none => { r with data := params }

/-- The loop of `addDataAsStruct` over the fields, from field `i` on.
`field.Interface()` panics on a field that is not exported. -/
def Request.addDataAsStruct.loop :
    List (Field GoValue) → List (String × GoValue) → Except Panic (List (String × GoValue))
  | [], d => .ok d
  | f :: fs, d =>
    if f.exported then
      Request.addDataAsStruct.loop fs
        (mapSet d (strings.ToLower f.name) (.str (fmt.Sprintf_v f.value)))
    else .error .unexportedField

def Request.addDataAsStruct (r : Request) (object : GoValue) : Except Panic Request :=
  match object with
  | .struct fields =>
    let d := match r.data with
      | none => []
      | some d => d
    match Request.addDataAsStruct.loop fields d with
    | .error e => .error e
    | .ok d1 => .ok { r with data := some d1 }
  | _ => .error .notAStruct

def Request.addRawDataAsString (r : Request) (data : String) : Request :=
  { r with raw_data := data }

def Request.Body (r : Request) (params : GoValue) : Except Panic Request :=
  match params with
  | .str s => .ok (r.addRawDataAsString s)
  | .struct fs => r.addDataAsStruct (.struct fs)
  | .mapSI m => .ok (r.addDataAsMap m)
  | .mapSS _ => .error .interfaceConversion
  | _ => .ok r

/-! ## Constructors -/

def New (method : String) : Request :=
  { Request.zero with
    method := method, headers := some [], cookies := some [], isUseBaseAuth := false }

def Get (url : String) (query : GoMap String) : Request :=
  { Request.zero with
    url := url, headers := some [], cookies := some [], method := GET, query := query,
    isUseBaseAuth := false }

def Head (url : String) (query : GoMap String) : Request :=
  { Request.zero with
    url := url, headers := some [], cookies := some [], method := HEAD, query := query,
    isUseBaseAuth := false }

def Post (url : String) (query : GoMap String) (ctype : ContentType) (data : GoValue) :
    Except Panic Request :=
  let r : Request := { Request.zero with
    url := url, headers := some [], cookies := some [], method := POST, query := query,
    ctype := ctype, isUseBaseAuth := false }
  r.Body data

def Put (url : String) (query : GoMap String) (ctype : ContentType) (data : GoValue) :
    Except Panic Request :=
  let r : Request := { Request.zero with
    url := url, headers := some [], cookies := some [], method := PUT, query := query,
    ctype := ctype, isUseBaseAuth := false }
  r.Body data

def Delete (url : String) (query : GoMap String) : Request :=
  { Request.zero with
    url := url, headers := some [], cookies := some [], method := DELETE, query := query,
    isUseBaseAuth := false }

def Patch (url : String) (query : GoMap String) (ctype : ContentType) (data : GoValue) :
    Except Panic Request :=
  let r : Request := { Request.zero with
    url := url, headers := some [], cookies := some [], method := PATCH, query := query,
    ctype := ctype, isUseBaseAuth := false }
  r.Body data

def Options (url : String) (query : GoMap String) : Request :=
  { Request.zero with
    url := url, headers := some [], cookies := some [], method := OPTIONS, query := query,
    isUseBaseAuth := false }

/-! ## Body serialization -/

def Request.getURLValues (r : Request) : url.Values :=
  r.data.entries.foldl (fun values kv =>
    url.Values.Add values (stringBytes kv.1) (stringBytes (fmt.Sprintf_v kv.2))) []

/-- Returns the bytes (`none` is the nil slice) and the request with the
Content-Type header the call has set. -/
def Request.prepareRequestBody (r0 : Request) : Except Panic (Option String × Request) := do
  let mut r := r0
  let mut bodyData : Option String := none
  if r.ctype = JSON then
    bodyData := some (json.Marshal r.data)
    r ← r.Header "Content-Type" "application/json"
  if r.ctype = XML then
    bodyData := some r.raw_data
    r ← r.Header "Content-Type" "application/xml"
  if r.ctype = TEXT then
    bodyData := some r.raw_data
    r ← r.Header "Content-Type" "text/plain"
  if r.ctype = FORM then
    bodyData := some (url.Values.Encode r.getURLValues)
    r ← r.Header "Content-Type" "application/x-www-form-urlencoded"
  return (bodyData, r)

/-! ## net/http

The parts of `net/http` that `Do` drives.  What depends on the network, on the
URL grammar or on the cookie grammar is a field of `Transport`; results about
`Do` hold for every transport. -/

/-- A token character of RFC 7230, as `httpguts.IsTokenRune` has it. -/
def isTokenChar (c : Char) : Bool :=
  c.isAlphanum || "!#$%&'*+-.^_`|~".data.contains c

/-- The letter case `CanonicalMIMEHeaderKey` gives: upper after the start and
after a hyphen, lower elsewhere. -/
def textproto.canonChars : Bool → List Char → List Char
  | _, [] => []
  | upper, c :: cs =>
    (if upper then c.toUpper else c.toLower) :: textproto.canonChars (c = '-') cs

/-- The function `textproto.CanonicalMIMEHeaderKey`: a key with a character
that is not a token character is returned unchanged. -/
def textproto.CanonicalMIMEHeaderKey (s : String) : String :=
  if s.data.all isTokenChar then String.mk (textproto.canonChars true s.data) else s

/-- The type `http.Header`, a `map[string][]string`. -/
abbrev http.Header := List (String × List String)

def http.Header.Set (h : http.Header) (key value : String) : http.Header :=
  mapSet h (textproto.CanonicalMIMEHeaderKey key) [value]

/-- The values stored for a key, nil when there is none: `h.Values(key)`. -/
def http.Header.Values (h : http.Header) (key : String) : List String :=
  (mapGet h (textproto.CanonicalMIMEHeaderKey key)).getD []

def http.Header.Get (h : http.Header) (key : String) : String :=
  (http.Header.Values h key).headD ""

/-- One character of the base64 standard alphabet. -/
def base64.digit (n : Nat) : Char :=
  "ABCDEFGHIJKLMNOPQRSTUVWXYZabcdefghijklmnopqrstuvwxyz0123456789+/".data.getD n '='

/-- Standard base64 with padding, on byte values. -/
def base64.encodeBytes : List Nat → List Char
  | [] => []
  | [a] => [base64.digit (a / 4), base64.digit (a % 4 * 16), '=', '=']
  | [a, b] =>
    [base64.digit (a / 4), base64.digit (a % 4 * 16 + b / 16), base64.digit (b % 16 * 4), '=']
  | a :: b :: c :: rest =>
    base64.digit (a / 4) :: base64.digit (a % 4 * 16 + b / 16) ::
      base64.digit (b % 16 * 4 + c / 64) :: base64.digit (c % 64) :: base64.encodeBytes rest

/-- The call `base64.StdEncoding.EncodeToString([]byte(s))`. -/
def base64.EncodeToString (s : String) : String :=
  String.mk (base64.encodeBytes (stringBytes s))

/-- The value of a character of the base64 standard alphabet. -/
def base64.value (c : Char) : Option Nat :=
  let i := "ABCDEFGHIJKLMNOPQRSTUVWXYZabcdefghijklmnopqrstuvwxyz0123456789+/".data.indexOf c
  if i < 64 then some i else none

/-- Decoding of standard base64 with padding, to byte values:
`base64.StdEncoding.DecodeString`, `none` for its error. -/
def base64.decodeChars : List Char → Option (List Nat)
  | [] => some []
  | c1 :: c2 :: c3 :: c4 :: rest =>
    match base64.value c1, base64.value c2 with
    | some v1, some v2 =>
      if c3 = '=' then
        if c4 = '=' ∧ rest = [] then some [v1 * 4 + v2 / 16] else none
      else
        match base64.value c3 with
        | none => none
        | some v3 =>
          if c4 = '=' then
            if rest = [] then some [v1 * 4 + v2 / 16, v2 % 16 * 16 + v3 / 4] else none
          else
            match base64.value c4, base64.decodeChars rest with
            | some v4, some tl =>
              some ((v1 * 4 + v2 / 16) :: (v2 % 16 * 16 + v3 / 4) :: (v3 % 4 * 64 + v4) :: tl)
            | _, _ => none
    | _, _ => none
  | _ => none

def base64.DecodeString (s : String) : Option (List Nat) :=
  base64.decodeChars s.data

abbrev GoError := String

/-- The fields of `url.URL`. -/
structure url.URL where
  Scheme : String
  Host : String
  Path : String
  RawQuery : String
  Fragment : String

/-- The fields of `http.Request` that `Do` sets; `Body` is `none` when the
request was built with a nil reader. -/
structure HttpRequest where
  Method : String
  URL : url.URL
  Header : http.Header
  Body : Option String

/-- The response metadata of `http.Response`. -/
structure Response where
  Status : String
  StatusCode : Int
  Header : http.Header

/-- What `Do` relies on and the package does not define. -/
structure Transport where
  /-- `url.Parse` -/
  Parse : String → Except GoError url.URL
  /-- the cookie name as `AddCookie` writes it -/
  sanitizeCookieName : String → String
  /-- the cookie value as `AddCookie` writes it -/
  sanitizeCookieValue : String → String
  /-- `(*http.Client).Do`: a response, or an error with the response there may be -/
  Do : HttpRequest → Except (Option Response × GoError) Response
  /-- `ioutil.ReadAll(resp.Body)`: the bytes read and the error, if any -/
  ReadAll : Response → List Nat × Option GoError

/-- The function `http.NewRequest`: an empty method means GET, the method must
be a token, and the URL must parse. -/
def http.NewRequest (env : Transport) (method url : String) (body : Option String) :
    Except GoError HttpRequest :=
  let method := if method = "" then "GET" else method
  if method.data.all isTokenChar then
    match env.Parse url with
    | .error e => .error e
    | .ok u => .ok { Method := method, URL := u, Header := [], Body := body }
  else .error ("net/http: invalid method " ++ method)

def http.AddCookie (env : Transport) (req : HttpRequest) (name value : String) : HttpRequest :=
  let s := env.sanitizeCookieName name ++ "=" ++ env.sanitizeCookieValue value
  let c := http.Header.Get req.Header "Cookie"
  if c ≠ "" then { req with Header := http.Header.Set req.Header "Cookie" (c ++ "; " ++ s) }
  else { req with Header := http.Header.Set req.Header "Cookie" s }

def http.SetBasicAuth (req : HttpRequest) (username password : String) : HttpRequest :=
  let auth := "Basic " ++ base64.EncodeToString (username ++ ":" ++ password)
  { req with Header := http.Header.Set req.Header "Authorization" auth }

/-! ## Execution -/

/-- The first statement of `Do`: the body reader, nil for GET and DELETE, and
the request as `prepareRequestBody` leaves it. -/
def Request.Do.bodyReader (r : Request) : Except Panic (Option String × Request) :=
  if r.method ≠ GET ∧ r.method ≠ DELETE then
    match r.prepareRequestBody with
    | .error e => .error e
    | .ok (bodyData, r1) => .ok (some (bodyData.getD ""), r1)
  else .ok (none, r)

/-- The loop of `Do` over the headers. -/
def Request.Do.setHeaders (r : Request) (req : HttpRequest) : HttpRequest :=
  r.headers.entries.foldl
    (fun req kv => { req with Header := http.Header.Set req.Header kv.1 kv.2 }) req

/-- The values `q` of `Do` once the loop over the query has run. -/
def Request.Do.queryValues (r : Request) (req : HttpRequest) : url.Values :=
  r.query.entries.foldl (fun q kv => url.Values.Add q (stringBytes kv.1) (stringBytes kv.2))
    (url.ParseQuery req.URL.RawQuery)

/-- The statements of `Do` that write the query back into the URL. -/
def Request.Do.setQuery (r : Request) (req : HttpRequest) : HttpRequest :=
  { req with URL := { req.URL with
      RawQuery := url.Values.Encode (Request.Do.queryValues r req) } }

/-- The loop of `Do` over the cookies. -/
def Request.Do.addCookies (env : Transport) (r : Request) (req : HttpRequest) : HttpRequest :=
  r.cookies.entries.foldl (fun req kv => http.AddCookie env req kv.1 kv.2) req

/-- The statement of `Do` for basic authentication. -/
def Request.Do.setAuth (r : Request) (req : HttpRequest) : HttpRequest :=
  if r.isUseBaseAuth then http.SetBasicAuth req r.authUsername r.authPassword else req

/-- The part of `Do` up to the dispatch: the outbound request, or the error of
`http.NewRequest`, together with the request state. -/
def Request.Do.outbound (env : Transport) (r : Request) :
    Except Panic (Except GoError HttpRequest × Request) :=
  match Request.Do.bodyReader r with
  | .error p => .error p
  | .ok (bodyReader, r1) =>
    match http.NewRequest env r1.method r1.url bodyReader with
    | .error err => .ok (.error err, r1)
    | .ok req =>
      .ok (.ok (Request.Do.setAuth r1 (Request.Do.addCookies env r1
        (Request.Do.setQuery r1 (Request.Do.setHeaders r1 req)))), r1)

/-- The three results of `Do`; `none` is nil. -/
structure DoResult where
  body : Option (List Nat)
  resp : Option Response
  err : Option GoError

def Request.Do (env : Transport) (r : Request) : Except Panic (DoResult × Request) :=
  match Request.Do.outbound env r with
  | .error p => .error p
  | .ok (.error err, r1) => .ok (⟨none, none, some err⟩, r1)
  | .ok (.ok req, r1) =>
    match env.Do req with
    | .error (resp, err) => .ok (⟨none, resp, some err⟩, r1)
    | .ok resp =>
      match env.ReadAll resp with
      | (_, some err) => .ok (⟨none, some resp, some err⟩, r1)
      | (body, none) => .ok (⟨some body, some resp, none⟩, r1)

/-! ## Sequences of calls -/

/-- One call of a mutator, with its arguments. -/
inductive Call where
  | Url (url : String)
  | Header (key value : String)
  | Query (params : GoMap String)
  | Cookie (key value : String)
  | BaseAuth (username password : String)
  | Body (params : GoValue)

def Request.call (r : Request) : Call → Except Panic Request
  | .Url u => .ok (r.Url u)
  | .Header k v => r.Header k v
  | .Query p => .ok (r.Query p)
  | .Cookie k v => r.Cookie k v
  | .BaseAuth u p => .ok (r.BaseAuth u p)
  | .Body p => r.Body p

/-- A chain `r.c1(..).c2(..)...`, which stops at the first panic. -/
def Request.calls (r : Request) : List Call → Except Panic Request
  | [] => .ok r
  | c :: cs =>
    match r.call c with
    | .error p => .error p
    | .ok r1 => Request.calls r1 cs

/-- One call of a constructor of the package, with its arguments. -/
inductive Constructor where
  | New (method : String)
  | Get (url : String) (query : GoMap String)
  | Head (url : String) (query : GoMap String)
  | Post (url : String) (query : GoMap String) (ctype : ContentType) (data : GoValue)
  | Put (url : String) (query : GoMap String) (ctype : ContentType) (data : GoValue)
  | Delete (url : String) (query : GoMap String)
  | Patch (url : String) (query : GoMap String) (ctype : ContentType) (data : GoValue)
  | Options (url : String) (query : GoMap String)

/-- The request a constructor call returns, or its panic. -/
def Constructor.run : Constructor → Except Panic Request
  | .New m => .ok (Networker.New m)
  | .Get u q => .ok (Networker.Get u q)
  | .Head u q => .ok (Networker.Head u q)
  | .Post u q c d => Networker.Post u q c d
  | .Put u q c d => Networker.Put u q c d
  | .Delete u q => .ok (Networker.Delete u q)
  | .Patch u q c d => Networker.Patch u q c d
  | .Options u q => .ok (Networker.Options u q)

/-! ## A transport for examples -/

/-- A transport for examples: every URL parses to a path with the query after
the first question mark left raw, cookies are written as given, and the
exchange returns status 200 with the body bytes 104, 105. -/
def demoTransport : Transport :=
  { Parse := fun u =>
      .ok { Scheme := "", Host := "", Path := String.mk (u.data.takeWhile (fun c => c != '?')),
            RawQuery := String.mk ((u.data.dropWhile (fun c => c != '?')).drop 1),
            Fragment := "" }
    sanitizeCookieName := fun n => n
    sanitizeCookieValue := fun v => v
    Do := fun _ => .ok { Status := "200 OK", StatusCode := 200, Header := [] }
    ReadAll := fun _ => ([104, 105], none) }

/-! ## What the specification says, as functions

These definitions follow the words of the specification, not the code; the
theorems compare the code with them. -/

/-- The text of a JSON object with one member per entry, keys ascending, keys
and values written as JSON strings. -/
def jsonObjectOfStrings (m : List (String × String)) : String :=
  "\x7b" ++ ",".intercalate ((sortByKey m).map
    (fun kv => json.quote kv.1 ++ ":" ++ json.quote kv.2)) ++ "\x7d"

/-- A map from strings to strings as a `map[string]interface{}` payload. -/
def stringEntries (m : List (String × String)) : List (String × GoValue) :=
  m.map (fun kv => (kv.1, GoValue.str kv.2))

/-- The value the last of the mappings that contain `k` gives to `k`, and
`prior` when none contains it. -/
def lastValue (k : String) (prior : Option String) (ms : List (GoMap String)) : Option String :=
  ms.foldl (fun acc m => firstSome (m.get k) acc) prior

/-- The pairs a struct payload stands for: the lower-cased name of each field
with the text of its value, in declaration order. -/
def structPairs (fs : List (Field GoValue)) : List (String × String) :=
  fs.map (fun f => (strings.ToLower f.name, fmt.Sprintf_v f.value))

/-- The URL-encoded form of a list of pairs: the pairs in ascending key order,
each written key=value with both sides escaped, joined by an ampersand. -/
def formOfPairs (ps : List (String × String)) : String :=
  "&".intercalate ((sortByKey ps).map
    (fun kv => url.QueryEscape (stringBytes kv.1) ++ "=" ++ url.QueryEscape (stringBytes kv.2)))

/-- Whether `Do` writes a Content-Type header: the method sends a body and the
content type is one of the four constants. -/
def writesContentType (r : Request) : Prop :=
  (r.method ≠ GET ∧ r.method ≠ DELETE) ∧
    (r.ctype = JSON ∨ r.ctype = XML ∨ r.ctype = TEXT ∨ r.ctype = FORM)

instance (r : Request) : Decidable (writesContentType r) := by
  unfold writesContentType; infer_instance

/-- The values the outbound request of `Do` carries for a header key, when
`Do` gets as far as building the request. -/
def Request.Do.sentValues (env : Transport) (r : Request) (key : String) : Option (List String) :=
  match Request.Do.outbound env r with
  | .ok (.ok out, _) => some (http.Header.Values out.Header key)
  | _ => none

/-- The entry a struct payload gives to a key: the text of the last field
whose lower-cased name is the key, if there is one. -/
def structFieldValue (fs : List (Field GoValue)) (k : String) : Option GoValue :=
  fs.foldl (fun acc f =>
    if strings.ToLower f.name = k then some (GoValue.str (fmt.Sprintf_v f.value)) else acc) none

/-- A piece of a raw query that `url.ParseQuery` keeps, with the key and the
value it stands for: it is not empty, has no semicolon, and what stands before
and after its first equals sign unescapes to the key and the value. -/
def wellFormedPair (seg k v : List Nat) : Prop :=
  59 ∉ seg ∧ seg ≠ [] ∧ url.unescapeBytes (cutBytes 61 seg).1 = some k ∧
    url.unescapeBytes (cutBytes 61 seg).2 = some v

/-- The values the configured query adds under a key of the outbound query:
the bytes of the values configured under the string with these bytes. -/
def addedValues (query : GoMap String) (kb : List Nat) : List (List Nat) :=
  (query.entries.filter (fun kv => stringBytes kv.1 = kb)).map (fun kv => stringBytes kv.2)

/-! # Theorems -/

/-! ## Lemmas on maps -/

theorem mapGet_mapSet_self {α : Type} (m : List (String × α)) (k : String) (v : α) :
    mapGet (mapSet m k v) k = some v := by
  induction m with
  | nil => simp [mapSet, mapGet]
  | cons hd tl ih =>
    obtain ⟨k1, v1⟩ := hd
    by_cases h : k1 = k
    · simp [mapSet, mapGet, h]
    · simp [mapSet, mapGet, h, ih]

theorem mapGet_mapSet_ne {α : Type} (m : List (String × α)) (k k2 : String) (v : α)
    (hne : k2 ≠ k) : mapGet (mapSet m k v) k2 = mapGet m k2 := by
  induction m with
  | nil => simp [mapSet, mapGet, Ne.symm hne]
  | cons hd tl ih =>
    obtain ⟨k1, v1⟩ := hd
    by_cases h : k1 = k
    · subst h
      simp [mapSet, mapGet, Ne.symm hne]
    · by_cases h2 : k1 = k2
      · subst h2
        simp [mapSet, mapGet, h]
      · simp [mapSet, mapGet, h, h2, ih]

theorem mapGet_eq_none_of_not_mem {α : Type} (m : List (String × α)) (k : String)
    (h : k ∉ m.map Prod.fst) : mapGet m k = none := by
  induction m with
  | nil => rfl
  | cons hd tl ih =>
    obtain ⟨k1, v1⟩ := hd
    simp only [List.map_cons, List.mem_cons, not_or] at h
    simp [mapGet, Ne.symm h.1, ih h.2]

theorem mapGet_mapMerge {α : Type} (p m : List (String × α)) (k : String)
    (hp : KeysNodup p) :
    mapGet (mapMerge m p) k = firstSome (mapGet p k) (mapGet m k) := by
  induction p generalizing m with
  | nil => simp [mapMerge, mapGet, firstSome]
  | cons hd tl ih =>
    obtain ⟨k1, v1⟩ := hd
    have hnd : k1 ∉ tl.map Prod.fst ∧ KeysNodup tl := by
      simpa [KeysNodup] using hp
    have step : mapMerge m ((k1, v1) :: tl) = mapMerge (mapSet m k1 v1) tl := rfl
    rw [step, ih _ hnd.2]
    by_cases h : k1 = k
    · subst h
      simp [mapGet, mapGet_eq_none_of_not_mem tl k1 hnd.1, mapGet_mapSet_self, firstSome]
    · simp [mapGet, h, mapGet_mapSet_ne m k1 k v1 (Ne.symm h)]

theorem keys_mapSet {α : Type} (m : List (String × α)) (k : String) (v : α) :
    (mapSet m k v).map Prod.fst =
      if k ∈ m.map Prod.fst then m.map Prod.fst else m.map Prod.fst ++ [k] := by
  induction m with
  | nil => simp [mapSet]
  | cons hd tl ih =>
    obtain ⟨k1, v1⟩ := hd
    by_cases h : k1 = k
    · subst h
      simp [mapSet]
    · have h2 : ¬ k = k1 := fun e => h e.symm
      by_cases hm : k ∈ tl.map Prod.fst
      · simp [mapSet, h, h2, ih, hm]
      · simp [mapSet, h, h2, ih, hm]

theorem keysNodup_mapSet {α : Type} (m : List (String × α)) (k : String) (v : α)
    (h : KeysNodup m) : KeysNodup (mapSet m k v) := by
  unfold KeysNodup at *
  rw [keys_mapSet]
  by_cases hm : k ∈ m.map Prod.fst
  · simp [hm, h]
  · simp only [hm, if_false]
    exact List.Nodup.append h (List.nodup_singleton k) (by simpa using hm)

/-! ## Body serialization by content type -/

theorem prepareRequestBody_json (r : Request) (h : List (String × String))
    (hh : r.headers = some h) (hc : r.ctype = JSON) :
    r.prepareRequestBody = .ok (some (json.Marshal r.data),
      { r with headers := some (mapSet h "Content-Type" "application/json") }) := by
  simp [Request.prepareRequestBody, Request.Header, hh, hc, JSON, XML, TEXT, FORM]
  rfl

theorem prepareRequestBody_xml (r : Request) (h : List (String × String))
    (hh : r.headers = some h) (hc : r.ctype = XML) :
    r.prepareRequestBody = .ok (some r.raw_data,
      { r with headers := some (mapSet h "Content-Type" "application/xml") }) := by
  simp [Request.prepareRequestBody, Request.Header, hh, hc, JSON, XML, TEXT, FORM]
  rfl

theorem prepareRequestBody_text (r : Request) (h : List (String × String))
    (hh : r.headers = some h) (hc : r.ctype = TEXT) :
    r.prepareRequestBody = .ok (some r.raw_data,
      { r with headers := some (mapSet h "Content-Type" "text/plain") }) := by
  simp [Request.prepareRequestBody, Request.Header, hh, hc, JSON, XML, TEXT, FORM]
  rfl

theorem prepareRequestBody_form (r : Request) (h : List (String × String))
    (hh : r.headers = some h) (hc : r.ctype = FORM) :
    r.prepareRequestBody = .ok (some (url.Values.Encode r.getURLValues),
      { r with headers := some (mapSet h "Content-Type" "application/x-www-form-urlencoded") }) := by
  simp [Request.prepareRequestBody, Request.Header, hh, hc, JSON, XML, TEXT, FORM]

theorem prepareRequestBody_other (r : Request)
    (hc : r.ctype ≠ JSON ∧ r.ctype ≠ XML ∧ r.ctype ≠ TEXT ∧ r.ctype ≠ FORM) :
    r.prepareRequestBody = .ok (none, r) := by
  simp [Request.prepareRequestBody, hc]
  rfl

/-! ## Execution without a body -/

theorem setHeaders_body (r : Request) (req : HttpRequest) :
    (Request.Do.setHeaders r req).Body = req.Body := by
  unfold Request.Do.setHeaders
  generalize r.headers.entries = l
  induction l generalizing req with
  | nil => rfl
  | cons hd tl ih => simp only [List.foldl_cons]; rw [ih]

theorem addCookies_body (env : Transport) (r : Request) (req : HttpRequest) :
    (Request.Do.addCookies env r req).Body = req.Body := by
  unfold Request.Do.addCookies
  generalize r.cookies.entries = l
  induction l generalizing req with
  | nil => rfl
  | cons hd tl ih =>
    simp only [List.foldl_cons]; rw [ih]
    by_cases hc : http.Header.Get req.Header "Cookie" = "" <;> simp [http.AddCookie, hc]

theorem setAuth_body (r : Request) (req : HttpRequest) :
    (Request.Do.setAuth r req).Body = req.Body := by
  unfold Request.Do.setAuth
  split <;> rfl

theorem configured_body (env : Transport) (r : Request) (req : HttpRequest) :
    (Request.Do.setAuth r (Request.Do.addCookies env r
      (Request.Do.setQuery r (Request.Do.setHeaders r req)))).Body = req.Body := by
  rw [setAuth_body, addCookies_body]
  show (Request.Do.setHeaders r req).Body = req.Body
  exact setHeaders_body r req

theorem newRequest_body (env : Transport) (method url : String) (body : Option String)
    (req : HttpRequest) (h : http.NewRequest env method url body = .ok req) :
    req.Body = body := by
  unfold http.NewRequest at h
  dsimp only at h
  by_cases hv : (if method = "" then "GET" else method).data.all isTokenChar = true
  · rw [if_pos hv] at h
    cases hp : env.Parse url with
    | error e => rw [hp] at h; cases h
    | ok u => rw [hp] at h; cases h; rfl
  · rw [if_neg hv] at h; cases h

/-- C1. A request whose method is GET or DELETE gets no body reader, whatever
content type, body fields and raw body it holds: the request state is left as
it was (no Content-Type header is written), `http.NewRequest` is called with a
nil body, and the outbound request that `Do` builds has no body. -/
theorem Do_get_delete_sends_no_body (env : Transport) (r : Request)
    (hm : r.method = GET ∨ r.method = DELETE) :
    Request.Do.bodyReader r = .ok (none, r) ∧
    (∀ err, http.NewRequest env r.method r.url none = .error err →
      Request.Do.outbound env r = .ok (.error err, r)) ∧
    (∀ req, http.NewRequest env r.method r.url none = .ok req →
      ∃ out, Request.Do.outbound env r = .ok (.ok out, r) ∧ out.Body = none) := by
  have hb : Request.Do.bodyReader r = .ok (none, r) := by
    unfold Request.Do.bodyReader
    rcases hm with h | h <;> simp [h]
  refine ⟨hb, ?_, ?_⟩
  · intro err he
    simp [Request.Do.outbound, hb, he]
  · intro req he
    refine ⟨Request.Do.setAuth r (Request.Do.addCookies env r
      (Request.Do.setQuery r (Request.Do.setHeaders r req))), ?_, ?_⟩
    · simp only [Request.Do.outbound, hb, he]
    rw [configured_body]
    exact newRequest_body env _ _ _ _ he

/-- C1, at a DELETE request declared JSON that holds body fields and a raw
body: the outbound request has no body and the headers stay empty. -/
theorem Do_get_delete_sends_no_body_witness :
    ∃ r out, (Delete "http://h/p" none).calls
        [.Body (.mapSI (some [("foo", .str "bar")])), .Body (.str "raw")] = .ok r ∧
      r.data = some [("foo", .str "bar")] ∧ r.raw_data = "raw" ∧
      Request.Do.bodyReader r = .ok (none, r) ∧
      Request.Do.outbound demoTransport r = .ok (.ok out, r) ∧ out.Body = none ∧
      out.Header = [] :=
  ⟨_, _, rfl, rfl, rfl,
    (Do_get_delete_sends_no_body demoTransport
      { (Delete "http://h/p" none) with
        data := some [("foo", .str "bar")], raw_data := "raw" } (Or.inr rfl)).1,
    rfl, rfl, rfl⟩

/-! ## JSON bodies and payload shapes -/

theorem sortByKey_map_snd {α β : Type} (g : α → β) (m : List (String × α)) :
    sortByKey (m.map (fun kv => (kv.1, g kv.2))) =
      (sortByKey m).map (fun kv => (kv.1, g kv.2)) := by
  unfold sortByKey
  exact (List.map_insertionSort (fun a b : String × α => keyLE a.1 b.1)
    (fun a b : String × β => keyLE a.1 b.1) (fun kv => (kv.1, g kv.2)) m
    (fun _ _ _ _ => Iff.rfl)).symm

theorem encodeEntries_stringEntries (m : List (String × String)) :
    json.encodeEntries (stringEntries m) = m.map (fun kv => (kv.1, json.quote kv.2)) := by
  induction m with
  | nil => rfl
  | cons hd tl ih =>
    obtain ⟨k, v⟩ := hd
    simp only [stringEntries, List.map_cons] at ih ⊢
    simp only [json.encodeEntries, json.encode, ih]

theorem Marshal_stringEntries (m : List (String × String)) :
    json.Marshal (some (stringEntries m)) = jsonObjectOfStrings m := by
  simp only [json.Marshal, json.encode, encodeEntries_stringEntries, jsonObjectOfStrings]
  rw [sortByKey_map_snd json.quote m, List.map_map]
  rfl

/-- C2, refuted as stated.  `Post(url, nil, JSON, "only raw")` leaves the body
fields nil, hence empty, and `prepareRequestBody` returns `null`, not the
empty object. -/
theorem prepareRequestBody_json_empty_fields_counterexample :
    ∃ r r1, Post "http://h/p" none JSON (.str "only raw") = .ok r ∧
      r.ctype = JSON ∧ r.method = POST ∧ r.data.entries = [] ∧
      r.prepareRequestBody = .ok (some "null", r1) ∧
      ¬ ∃ r2, r.prepareRequestBody = .ok (some "\x7b\x7d", r2) := by
  refine ⟨_, _, rfl, rfl, rfl, rfl, rfl, ?_⟩
  rintro ⟨r2, h2⟩
  have h3 := congrArg (fun x => x.toOption.map Prod.fst) h2
  have h4 : some (some "null") = some (some "\x7b\x7d") := h3
  exact absurd h4 (by decide)

/-- C2, amended.  A JSON-declared request with initialised headers whose body
fields are empty serializes to the empty object when the mapping is an empty
map that is not nil, and to `null` when the mapping is nil; the latter is what
`Post(url, q, JSON, s)` gives for every string `s`. -/
theorem prepareRequestBody_json_empty_fields (r : Request) (h : List (String × String))
    (hh : r.headers = some h) (hc : r.ctype = JSON) :
    (r.data = some [] → r.prepareRequestBody = .ok (some "\x7b\x7d",
      { r with headers := some (mapSet h "Content-Type" "application/json") })) ∧
    (r.data = none → r.prepareRequestBody = .ok (some "null",
      { r with headers := some (mapSet h "Content-Type" "application/json") })) ∧
    (∀ url q s, ∃ r1 r2, Post url q JSON (.str s) = .ok r1 ∧ r1.data = none ∧
      r1.prepareRequestBody = .ok (some "null", r2)) := by
  refine ⟨?_, ?_, ?_⟩
  · intro hd
    rw [prepareRequestBody_json r h hh hc, hd]
    rfl
  · intro hd
    rw [prepareRequestBody_json r h hh hc, hd]
    rfl
  · intro url q s
    exact ⟨_, _, rfl, rfl, rfl⟩

/-- C2, amended, at `Put(url, nil, JSON, {})` with an empty map that is not
nil. -/
theorem prepareRequestBody_json_empty_fields_witness :
    ∃ r, Put "http://h/p" none JSON (.mapSI (some [])) = .ok r ∧
      r.prepareRequestBody = .ok (some "\x7b\x7d",
        { r with headers := some [("Content-Type", "application/json")] }) :=
  ⟨_, rfl, (prepareRequestBody_json_empty_fields
    { Request.zero with
      url := "http://h/p", headers := some [], cookies := some [], method := PUT,
      data := some [] } [] rfl rfl).1 rfl⟩

/-- C4, at the failing inputs.  `Body` panics on a `map[string]string`, whose
kind is Map but whose type the assertion rejects, and on a struct with a field
that is not exported. -/
theorem Body_panics :
    (New POST).Body (.mapSS (some [("a", "b")])) = .error .interfaceConversion ∧
    (New POST).Body (.struct [⟨"Foo", true, .str "bar"⟩, ⟨"secret", false, .int 1⟩]) =
      .error .unexportedField :=
  ⟨rfl, rfl⟩

/-! ## Raw bodies and query merging -/

/-- C7. After `Body(s)` on a request with initialised headers, whatever its
body fields, an XML-declared request serializes to `s` itself and sets
Content-Type to application/xml, and a TEXT-declared request serializes to `s`
itself and sets Content-Type to text/plain. -/
theorem prepareRequestBody_raw_verbatim (r : Request) (s : String)
    (h : List (String × String)) (hh : r.headers = some h) :
    ∃ r1, r.Body (.str s) = .ok r1 ∧ r1.raw_data = s ∧ r1.data = r.data ∧
      (r.ctype = XML → ∃ r2, r1.prepareRequestBody = .ok (some s, r2) ∧
        r2 = { r1 with headers := some (mapSet h "Content-Type" "application/xml") } ∧
        r2.headers.get "Content-Type" = some "application/xml") ∧
      (r.ctype = TEXT → ∃ r2, r1.prepareRequestBody = .ok (some s, r2) ∧
        r2 = { r1 with headers := some (mapSet h "Content-Type" "text/plain") } ∧
        r2.headers.get "Content-Type" = some "text/plain") := by
  refine ⟨r.addRawDataAsString s, rfl, rfl, rfl, ?_, ?_⟩
  · intro hc
    refine ⟨_, prepareRequestBody_xml (r.addRawDataAsString s) h hh hc, rfl, ?_⟩
    exact mapGet_mapSet_self h _ _
  · intro hc
    refine ⟨_, prepareRequestBody_text (r.addRawDataAsString s) h hh hc, rfl, ?_⟩
    exact mapGet_mapSet_self h _ _

/-- C7, at the XML document of the test suite, on a request that also holds
body fields. -/
theorem prepareRequestBody_raw_verbatim_witness :
    ∃ r0 r1 r2, Post "http://h/xml" none XML (.mapSI (some [("foo", .str "bar")])) = .ok r0 ∧
      r0.Body (.str "<language>Golang</language>") = .ok r1 ∧
      r1.prepareRequestBody = .ok (some "<language>Golang</language>", r2) ∧
      r2.headers = some [("Content-Type", "application/xml")] := by
  obtain ⟨r1, h1, -, -, hx, -⟩ := prepareRequestBody_raw_verbatim
    { Request.zero with
      url := "http://h/xml", headers := some [], cookies := some [], method := POST,
      ctype := XML, data := some [("foo", .str "bar")] }
    "<language>Golang</language>" [] rfl
  obtain ⟨r2, h2, h3, -⟩ := hx rfl
  refine ⟨_, r1, r2, rfl, h1, h2, ?_⟩
  rw [h3]
  rfl

theorem Query_get (r : Request) (m : GoMap String) (hm : m.WF) (k : String) :
    (r.Query m).query.get k = firstSome (m.get k) (r.query.get k) := by
  unfold Request.Query
  cases hq : r.query with
  | none =>
    show m.get k = firstSome (m.get k) none
    cases m.get k <;> rfl
  | some q =>
    show mapGet (mapMerge q m.entries) k = firstSome (m.get k) (mapGet q k)
    rw [mapGet_mapMerge m.entries q k hm]
    cases m <;> rfl

theorem lastValue_isSome_of_prior (k : String) (ms : List (GoMap String)) (prior : Option String)
    (hp : prior.isSome) : (lastValue k prior ms).isSome := by
  induction ms generalizing prior with
  | nil => exact hp
  | cons m tl ih =>
    simp only [lastValue, List.foldl_cons]
    apply ih
    cases m.get k <;> simp [hp, firstSome]

theorem lastValue_isSome_of_mem (k : String) (ms : List (GoMap String)) (prior : Option String)
    (m : GoMap String) (hm : m ∈ ms) (hk : (m.get k).isSome) :
    (lastValue k prior ms).isSome := by
  induction ms generalizing prior with
  | nil => cases hm
  | cons m1 tl ih =>
    rcases List.mem_cons.1 hm with h | h
    · subst h
      simp only [lastValue, List.foldl_cons]
      apply lastValue_isSome_of_prior
      cases hg : m.get k with
      | none => rw [hg] at hk; cases hk
      | some v => rfl
    · exact ih _ h

/-- C8. After any sequence of `Query` calls, each key holds the value the last
mapping that contains it gave, and its prior value when none contains it; so
every key of the prior query state and of every mapping is present and none is
removed. -/
theorem Query_calls_accumulate (r : Request) (ms : List (GoMap String))
    (hwf : ∀ m ∈ ms, m.WF) (k : String) :
    (ms.foldl Request.Query r).query.get k = lastValue k (r.query.get k) ms ∧
    ((r.query.get k).isSome → ((ms.foldl Request.Query r).query.get k).isSome) ∧
    (∀ m ∈ ms, (m.get k).isSome → ((ms.foldl Request.Query r).query.get k).isSome) := by
  have key : ∀ (ms : List (GoMap String)) (r : Request), (∀ m ∈ ms, m.WF) →
      (ms.foldl Request.Query r).query.get k = lastValue k (r.query.get k) ms := by
    intro ms
    induction ms with
    | nil => intro r _; rfl
    | cons m tl ih =>
      intro r hw
      simp only [List.foldl_cons, lastValue]
      rw [ih (r.Query m) (fun x hx => hw x (List.mem_cons_of_mem _ hx)),
        Query_get r m (hw m (List.mem_cons_self _ _)) k]
      rfl
  rw [key ms r hwf]
  exact ⟨rfl, lastValue_isSome_of_prior k ms _, fun m hm hk =>
    lastValue_isSome_of_mem k ms _ m hm hk⟩

/-- C8, at two calls on a request built with a query: the key of the
constructor stays, the key both calls set holds the later value. -/
theorem Query_calls_accumulate_witness :
    (([some [("b", "2"), ("c", "3")], some [("c", "4")]].foldl Request.Query
      (Get "http://h/p" (some [("a", "1")]))).query.get "c" = some "4") ∧
    (([some [("b", "2"), ("c", "3")], some [("c", "4")]].foldl Request.Query
      (Get "http://h/p" (some [("a", "1")]))).query.get "a").isSome := by
  have h := Query_calls_accumulate (Get "http://h/p" (some [("a", "1")]))
    [some [("b", "2"), ("c", "3")], some [("c", "4")]] (by decide)
  exact ⟨(h "c").1.trans (by decide), (h "a").2.1 (by decide)⟩

/-! ## The outbound query and the outcomes of Do -/

/-- On a request whose headers map is nil, `prepareRequestBody` panics for
each of the four content types. -/
theorem prepareRequestBody_nil_headers (r : Request) (hh : r.headers = none)
    (hc : r.ctype = JSON ∨ r.ctype = XML ∨ r.ctype = TEXT ∨ r.ctype = FORM) :
    r.prepareRequestBody = .error .nilMapAssignment := by
  rcases hc with h | h | h | h <;>
    simp [Request.prepareRequestBody, Request.Header, hh, h, JSON, XML, TEXT, FORM] <;> rfl

/-- What `prepareRequestBody` may change is the headers map. -/
theorem prepareRequestBody_frame (r r1 : Request) (b : Option String)
    (h : r.prepareRequestBody = .ok (b, r1)) : ∃ hd, r1 = { r with headers := hd } := by
  cases hh : r.headers with
  | some hs =>
    by_cases h0 : r.ctype = JSON
    · rw [prepareRequestBody_json r hs hh h0] at h
      cases h; exact ⟨_, rfl⟩
    by_cases h1 : r.ctype = XML
    · rw [prepareRequestBody_xml r hs hh h1] at h
      cases h; exact ⟨_, rfl⟩
    by_cases h2 : r.ctype = TEXT
    · rw [prepareRequestBody_text r hs hh h2] at h
      cases h; exact ⟨_, rfl⟩
    by_cases h3 : r.ctype = FORM
    · rw [prepareRequestBody_form r hs hh h3] at h
      cases h; exact ⟨_, rfl⟩
    rw [prepareRequestBody_other r ⟨h0, h1, h2, h3⟩] at h
    cases h; exact ⟨r.headers, rfl⟩
  | none =>
    by_cases hc : r.ctype = JSON ∨ r.ctype = XML ∨ r.ctype = TEXT ∨ r.ctype = FORM
    · rw [prepareRequestBody_nil_headers r hh hc] at h
      cases h
    · rw [prepareRequestBody_other r ⟨fun e => hc (Or.inl e), fun e => hc (Or.inr (Or.inl e)),
        fun e => hc (Or.inr (Or.inr (Or.inl e))), fun e => hc (Or.inr (Or.inr (Or.inr e)))⟩] at h
      cases h; exact ⟨r.headers, rfl⟩

theorem bodyReader_frame (r r1 : Request) (b : Option String)
    (h : Request.Do.bodyReader r = .ok (b, r1)) : ∃ hd, r1 = { r with headers := hd } := by
  unfold Request.Do.bodyReader at h
  by_cases hm : r.method ≠ GET ∧ r.method ≠ DELETE
  · rw [if_pos hm] at h
    cases hp : r.prepareRequestBody with
    | error e => rw [hp] at h; cases h
    | ok p =>
      obtain ⟨b1, r2⟩ := p
      rw [hp] at h
      cases h
      exact prepareRequestBody_frame r r1 b1 hp
  · rw [if_neg hm] at h
    cases h
    exact ⟨r.headers, rfl⟩

theorem addCookies_URL (env : Transport) (r : Request) (req : HttpRequest) :
    (Request.Do.addCookies env r req).URL = req.URL := by
  unfold Request.Do.addCookies
  generalize r.cookies.entries = l
  induction l generalizing req with
  | nil => rfl
  | cons hd tl ih =>
    simp only [List.foldl_cons]; rw [ih]
    by_cases hc : http.Header.Get req.Header "Cookie" = "" <;> simp [http.AddCookie, hc]

theorem setAuth_URL (r : Request) (req : HttpRequest) :
    (Request.Do.setAuth r req).URL = req.URL := by
  unfold Request.Do.setAuth
  split <;> rfl

theorem setHeaders_URL (r : Request) (req : HttpRequest) :
    (Request.Do.setHeaders r req).URL = req.URL := by
  unfold Request.Do.setHeaders
  generalize r.headers.entries = l
  induction l generalizing req with
  | nil => rfl
  | cons hd tl ih => simp only [List.foldl_cons]; rw [ih]

/-- C10. The outcomes of `Do`, by the step that fails.  When `http.NewRequest`
fails, `Do` returns no body, no response and the error.  When the dispatch
fails, it returns no body, the response the client gave, if any, and the
error.  When the dispatch succeeds and reading the body fails, it returns no
body, the response and the read error.  When both succeed, it returns the
bytes read, the response and no error.  In every outcome with an error the
body is absent. -/
theorem Do_outcomes (env : Transport) (r r1 : Request) (x : Except GoError HttpRequest)
    (hx : Request.Do.outbound env r = .ok (x, r1)) :
    (∀ err, x = .error err → Request.Do env r = .ok (⟨none, none, some err⟩, r1)) ∧
    (∀ req resp err, x = .ok req → env.Do req = .error (resp, err) →
      Request.Do env r = .ok (⟨none, resp, some err⟩, r1)) ∧
    (∀ req resp bytes err, x = .ok req → env.Do req = .ok resp →
      env.ReadAll resp = (bytes, some err) →
      Request.Do env r = .ok (⟨none, some resp, some err⟩, r1)) ∧
    (∀ req resp bytes, x = .ok req → env.Do req = .ok resp →
      env.ReadAll resp = (bytes, none) →
      Request.Do env r = .ok (⟨some bytes, some resp, none⟩, r1)) ∧
    (∀ res, Request.Do env r = .ok (res, r1) → res.err ≠ none → res.body = none) := by
  refine ⟨?_, ?_, ?_, ?_, ?_⟩
  · intro err he
    subst he
    simp only [Request.Do, hx]
  · intro req resp err he hd
    subst he
    simp only [Request.Do, hx, hd]
  · intro req resp bytes err he hd hr
    subst he
    simp only [Request.Do, hx, hd, hr]
  · intro req resp bytes he hd hr
    subst he
    simp only [Request.Do, hx, hd, hr]
  · intro res hres herr
    unfold Request.Do at hres
    rw [hx] at hres
    cases x with
    | error e => cases hres; rfl
    | ok req =>
      dsimp only at hres
      cases hd : env.Do req with
      | error pe =>
        obtain ⟨resp, e⟩ := pe
        rw [hd] at hres
        cases hres; rfl
      | ok resp =>
        rw [hd] at hres
        dsimp only at hres
        cases hr : env.ReadAll resp with
        | mk bytes oe =>
          rw [hr] at hres
          cases oe with
          | none => cases hres; exact absurd rfl herr
          | some e => cases hres; rfl

/-- C10, at a successful exchange: the body bytes and the response come back
with no error. -/
theorem Do_outcomes_witness :
    Request.Do demoTransport (Get "http://h/p" none) =
      .ok (⟨some [104, 105], some ⟨"200 OK", 200, []⟩, none⟩, Get "http://h/p" none) :=
  (Do_outcomes demoTransport (Get "http://h/p" none) (Get "http://h/p" none)
    (.ok { Method := "GET", URL := ⟨"", "", "http://h/p", "", ""⟩, Header := [], Body := none })
    rfl).2.2.2.1 _ _ _ rfl rfl rfl

/-! ## FORM bodies from struct payloads -/

theorem mapSet_of_not_mem {α : Type} (m : List (String × α)) (k : String) (v : α)
    (h : k ∉ m.map Prod.fst) : mapSet m k v = m ++ [(k, v)] := by
  induction m with
  | nil => rfl
  | cons hd tl ih =>
    obtain ⟨k1, v1⟩ := hd
    simp only [List.map_cons, List.mem_cons, not_or] at h
    simp [mapSet, Ne.symm h.1, ih h.2]

theorem mapGet_of_mem {α : Type} (m : List (String × α)) (k : String) (v : α)
    (hm : KeysNodup m) (h : (k, v) ∈ m) : mapGet m k = some v := by
  induction m with
  | nil => cases h
  | cons hd tl ih =>
    obtain ⟨k1, v1⟩ := hd
    have hnd : k1 ∉ tl.map Prod.fst ∧ KeysNodup tl := by
      simpa [KeysNodup] using hm
    rcases List.mem_cons.1 h with h1 | h1
    · cases h1
      simp [mapGet]
    · have hne : k1 ≠ k := by
        intro e
        subst e
        exact hnd.1 (List.mem_map_of_mem Prod.fst h1)
      simp [mapGet, hne, ih hnd.2 h1]

theorem addDataAsStruct_loop_exported (fs : List (Field GoValue)) (d : List (String × GoValue))
    (hex : ∀ f ∈ fs, f.exported = true) :
    Request.addDataAsStruct.loop fs d =
      .ok (mapMerge d (fs.map (fun f =>
        (strings.ToLower f.name, GoValue.str (fmt.Sprintf_v f.value))))) := by
  induction fs generalizing d with
  | nil => rfl
  | cons f tl ih =>
    have h1 : f.exported = true := hex f (List.mem_cons_self _ _)
    simp only [Request.addDataAsStruct.loop, h1, if_true]
    rw [ih _ (fun g hg => hex g (List.mem_cons_of_mem _ hg))]
    rfl

theorem mapMerge_fresh {α : Type} (p d : List (String × α)) (hp : KeysNodup p)
    (hd : ∀ k ∈ p.map Prod.fst, k ∉ d.map Prod.fst) : mapMerge d p = d ++ p := by
  induction p generalizing d with
  | nil => simp [mapMerge]
  | cons hd1 tl ih =>
    obtain ⟨k1, v1⟩ := hd1
    have hnd : k1 ∉ tl.map Prod.fst ∧ KeysNodup tl := by
      simpa [KeysNodup] using hp
    have step : mapMerge d ((k1, v1) :: tl) = mapMerge (mapSet d k1 v1) tl := rfl
    rw [step, mapSet_of_not_mem d k1 v1 (hd k1 (by simp)), ih _ hnd.2]
    · simp
    · intro k hk
      simp only [List.map_append, List.map_cons, List.map_nil, List.mem_append,
        List.mem_singleton, not_or]
      refine ⟨hd k (by simp [hk]), ?_⟩
      intro e
      subst e
      exact hnd.1 hk

/-! ## Chains of calls and the headers map -/

theorem calls_append (r : Request) (a b : List Call) :
    r.calls (a ++ b) = (match r.calls a with
      | .error p => .error p
      | .ok r1 => r1.calls b) := by
  induction a generalizing r with
  | nil => rfl
  | cons c tl ih =>
    simp only [List.cons_append, Request.calls]
    cases r.call c with
    | error p => rfl
    | ok r1 => exact ih r1

theorem Body_headers (r r1 : Request) (p : GoValue) (h : r.Body p = .ok r1) :
    r1.headers = r.headers := by
  cases p with
  | nil => cases h; rfl
  | bool b => cases h; rfl
  | int n => cases h; rfl
  | str s => cases h; rfl
  | mapSS m => cases h
  | mapSI m =>
    cases h
    unfold Request.addDataAsMap
    cases r.data <;> rfl
  | struct fs =>
    simp only [Request.Body, Request.addDataAsStruct] at h
    split at h
    · cases h
    · cases h; rfl

theorem call_headers_get (r r1 : Request) (c : Call) (k : String)
    (hc : ∀ v, c ≠ Call.Header k v) (h : r.call c = .ok r1) :
    r1.headers.get k = r.headers.get k := by
  cases c with
  | Url u => cases h; rfl
  | Query p =>
    cases h
    unfold Request.Query
    cases r.query <;> rfl
  | BaseAuth u p => cases h; rfl
  | Body p => rw [Body_headers r r1 p h]
  | Cookie k1 v1 =>
    simp only [Request.call, Request.Cookie] at h
    split at h
    · cases h
    · cases h; rfl
  | Header k1 v1 =>
    have hne : k ≠ k1 := by
      intro e
      subst e
      exact hc v1 rfl
    simp only [Request.call, Request.Header] at h
    split at h
    · cases h
    · rename_i hd heq
      cases h
      simp only [GoMap.get, heq]
      exact mapGet_mapSet_ne hd k1 k v1 hne

theorem call_headers_WF (r r1 : Request) (c : Call) (hw : r.headers.WF)
    (h : r.call c = .ok r1) : r1.headers.WF := by
  cases c with
  | Url u => cases h; exact hw
  | Query p =>
    cases h
    unfold Request.Query
    cases r.query <;> exact hw
  | BaseAuth u p => cases h; exact hw
  | Body p => rw [Body_headers r r1 p h]; exact hw
  | Cookie k1 v1 =>
    simp only [Request.call, Request.Cookie] at h
    split at h
    · cases h
    · cases h; exact hw
  | Header k1 v1 =>
    simp only [Request.call, Request.Header] at h
    split at h
    · cases h
    · rename_i hd heq
      cases h
      rw [heq] at hw
      exact keysNodup_mapSet hd k1 v1 hw

theorem calls_headers_get (cs : List Call) (r r1 : Request) (k : String)
    (hc : ∀ v, Call.Header k v ∉ cs) (h : r.calls cs = .ok r1) :
    r1.headers.get k = r.headers.get k := by
  induction cs generalizing r with
  | nil => cases h; rfl
  | cons c tl ih =>
    simp only [Request.calls] at h
    cases hcall : r.call c with
    | error p => rw [hcall] at h; cases h
    | ok r2 =>
      rw [hcall] at h
      rw [ih r2 (fun v hv => hc v (List.mem_cons_of_mem _ hv)) h]
      exact call_headers_get r r2 c k (fun v e => hc v (e ▸ List.mem_cons_self _ _)) hcall

theorem calls_headers_WF (cs : List Call) (r r1 : Request) (hw : r.headers.WF)
    (h : r.calls cs = .ok r1) : r1.headers.WF := by
  induction cs generalizing r with
  | nil => cases h; exact hw
  | cons c tl ih =>
    simp only [Request.calls] at h
    cases hcall : r.call c with
    | error p => rw [hcall] at h; cases h
    | ok r2 =>
      rw [hcall] at h
      exact ih r2 (call_headers_WF r r2 c hw hcall) h

/-- After a chain whose last `Header` call for `k` gave `v`, the headers map
holds `v` under `k`. -/
theorem calls_last_Header (r0 r : Request) (pre post : List Call) (k v : String)
    (hr : r0.calls (pre ++ Call.Header k v :: post) = .ok r)
    (hpost : ∀ v1, Call.Header k v1 ∉ post) : r.headers.get k = some v := by
  rw [calls_append] at hr
  cases hpre : r0.calls pre with
  | error p => rw [hpre] at hr; cases hr
  | ok r1 =>
    rw [hpre] at hr
    simp only [Request.calls, Request.call] at hr
    cases hh : r1.Header k v with
    | error p => rw [hh] at hr; cases hr
    | ok r2 =>
      rw [hh] at hr
      rw [calls_headers_get post r2 r k hpost hr]
      simp only [Request.Header] at hh
      split at hh
      · cases hh
      · rename_i hd heq
        cases hh
        exact mapGet_mapSet_self hd k v

/-! ## Headers of the outbound request -/

theorem mem_of_mapGet {α : Type} (m : List (String × α)) (k : String) (v : α)
    (h : mapGet m k = some v) : (k, v) ∈ m := by
  induction m with
  | nil => cases h
  | cons hd tl ih =>
    obtain ⟨k1, v1⟩ := hd
    by_cases e : k1 = k
    · subst e
      simp only [mapGet, if_true] at h
      cases h
      exact List.mem_cons_self _ _
    · simp only [mapGet, e, if_false] at h
      exact List.mem_cons_of_mem _ (ih h)

/-- The loop over the headers, on the header map alone. -/
theorem setHeaders_Header (r : Request) (req : HttpRequest) :
    (Request.Do.setHeaders r req).Header =
      r.headers.entries.foldl (fun H kv => http.Header.Set H kv.1 kv.2) req.Header := by
  unfold Request.Do.setHeaders
  generalize r.headers.entries = l
  induction l generalizing req with
  | nil => rfl
  | cons hd tl ih => simp only [List.foldl_cons]; rw [ih]

theorem foldl_Set_get (l : List (String × String)) (H : http.Header) (k v : String)
    (hl : ∀ kv ∈ l, textproto.CanonicalMIMEHeaderKey kv.1 = textproto.CanonicalMIMEHeaderKey k →
      kv = (k, v))
    (hmem : (k, v) ∈ l) :
    mapGet (l.foldl (fun H kv => http.Header.Set H kv.1 kv.2) H)
      (textproto.CanonicalMIMEHeaderKey k) = some [v] := by
  have gen : ∀ (l : List (String × String)) (H : http.Header),
      (∀ kv ∈ l, textproto.CanonicalMIMEHeaderKey kv.1 = textproto.CanonicalMIMEHeaderKey k →
        kv = (k, v)) →
      ((k, v) ∈ l ∨ mapGet H (textproto.CanonicalMIMEHeaderKey k) = some [v]) →
      mapGet (l.foldl (fun H kv => http.Header.Set H kv.1 kv.2) H)
        (textproto.CanonicalMIMEHeaderKey k) = some [v] := by
    intro l
    induction l with
    | nil =>
      intro H _ h
      rcases h with h | h
      · cases h
      · exact h
    | cons kv tl ih =>
      intro H hl h
      simp only [List.foldl_cons]
      apply ih _ (fun x hx => hl x (List.mem_cons_of_mem _ hx))
      by_cases hc : textproto.CanonicalMIMEHeaderKey kv.1 = textproto.CanonicalMIMEHeaderKey k
      · right
        have e := hl kv (List.mem_cons_self _ _) hc
        subst e
        exact mapGet_mapSet_self H _ _
      · rcases h with h | h
        · rcases List.mem_cons.1 h with h1 | h1
          · exact absurd (by rw [← h1]) hc
          · exact Or.inl h1
        · right
          unfold http.Header.Set
          rw [mapGet_mapSet_ne H _ _ _ (Ne.symm hc)]
          exact h
  exact gen l H hl (Or.inl hmem)

theorem AddCookie_get (env : Transport) (req : HttpRequest) (n x c : String)
    (hc : c ≠ "Cookie") : mapGet (http.AddCookie env req n x).Header c = mapGet req.Header c := by
  have hcanon : textproto.CanonicalMIMEHeaderKey "Cookie" = "Cookie" := by decide
  by_cases h : http.Header.Get req.Header "Cookie" = "" <;>
    simp only [http.AddCookie, h, ne_eq, not_true_eq_false, not_false_eq_true, if_true, if_false,
      http.Header.Set, hcanon] <;>
    exact mapGet_mapSet_ne _ _ _ _ hc

theorem addCookies_get (env : Transport) (r : Request) (req : HttpRequest) (c : String)
    (hc : c = "Cookie" → r.cookies.entries = []) :
    mapGet (Request.Do.addCookies env r req).Header c = mapGet req.Header c := by
  unfold Request.Do.addCookies
  by_cases e : c = "Cookie"
  · rw [hc e]; rfl
  · generalize r.cookies.entries = l
    induction l generalizing req with
    | nil => rfl
    | cons hd tl ih =>
      simp only [List.foldl_cons]
      rw [ih, AddCookie_get env req _ _ c e]

theorem setAuth_get (r : Request) (req : HttpRequest) (c : String)
    (hc : c = "Authorization" → r.isUseBaseAuth = false) :
    mapGet (Request.Do.setAuth r req).Header c = mapGet req.Header c := by
  have hcanon : textproto.CanonicalMIMEHeaderKey "Authorization" = "Authorization" := by decide
  unfold Request.Do.setAuth
  by_cases hb : r.isUseBaseAuth = true
  · have e : c ≠ "Authorization" := by
      intro e
      rw [hc e] at hb
      cases hb
    simp only [hb, if_true, http.SetBasicAuth, http.Header.Set, hcanon]
    exact mapGet_mapSet_ne _ _ _ _ e
  · simp [hb]

theorem bodyReader_cases (r : Request) (h : List (String × String)) (hh : r.headers = some h) :
    ∃ b r1, Request.Do.bodyReader r = .ok (b, r1) ∧ r1.cookies = r.cookies ∧
      r1.isUseBaseAuth = r.isUseBaseAuth ∧
      ((¬ writesContentType r ∧ r1.headers = some h) ∨
        (writesContentType r ∧ ∃ x, r1.headers = some (mapSet h "Content-Type" x))) := by
  unfold Request.Do.bodyReader
  by_cases hm : r.method ≠ GET ∧ r.method ≠ DELETE
  · rw [if_pos hm]
    by_cases h0 : r.ctype = JSON
    · rw [prepareRequestBody_json r h hh h0]
      exact ⟨_, _, rfl, rfl, rfl, Or.inr ⟨⟨hm, Or.inl h0⟩, _, rfl⟩⟩
    by_cases h1 : r.ctype = XML
    · rw [prepareRequestBody_xml r h hh h1]
      exact ⟨_, _, rfl, rfl, rfl, Or.inr ⟨⟨hm, Or.inr (Or.inl h1)⟩, _, rfl⟩⟩
    by_cases h2 : r.ctype = TEXT
    · rw [prepareRequestBody_text r h hh h2]
      exact ⟨_, _, rfl, rfl, rfl, Or.inr ⟨⟨hm, Or.inr (Or.inr (Or.inl h2))⟩, _, rfl⟩⟩
    by_cases h3 : r.ctype = FORM
    · rw [prepareRequestBody_form r h hh h3]
      exact ⟨_, _, rfl, rfl, rfl, Or.inr ⟨⟨hm, Or.inr (Or.inr (Or.inr h3))⟩, _, rfl⟩⟩
    rw [prepareRequestBody_other r ⟨h0, h1, h2, h3⟩]
    refine ⟨_, _, rfl, rfl, rfl, Or.inl ⟨?_, hh⟩⟩
    rintro ⟨-, hc⟩
    rcases hc with hc | hc | hc | hc
    · exact h0 hc
    · exact h1 hc
    · exact h2 hc
    · exact h3 hc
  · rw [if_neg hm]
    exact ⟨_, _, rfl, rfl, rfl, Or.inl ⟨fun hw => hm hw.1, hh⟩⟩

theorem newRequest_Header (env : Transport) (method url : String) (body : Option String)
    (req : HttpRequest) (h : http.NewRequest env method url body = .ok req) :
    req.Header = [] := by
  unfold http.NewRequest at h
  dsimp only at h
  by_cases hv : (if method = "" then "GET" else method).data.all isTokenChar = true
  · rw [if_pos hv] at h
    cases hp : env.Parse url with
    | error e => rw [hp] at h; cases h
    | ok u => rw [hp] at h; cases h; rfl
  · rw [if_neg hv] at h; cases h

theorem mem_keys_mapSet {α : Type} (m : List (String × α)) (k : String) (v : α) (k1 : String)
    (h : k1 ∈ (mapSet m k v).map Prod.fst) : k1 ∈ m.map Prod.fst ∨ k1 = k := by
  rw [keys_mapSet] at h
  by_cases hm : k ∈ m.map Prod.fst
  · rw [if_pos hm] at h
    exact Or.inl h
  · rw [if_neg hm] at h
    rcases List.mem_append.1 h with h1 | h1
    · exact Or.inl h1
    · exact Or.inr (by simpa using h1)

/-- The header the outbound request carries for `k`, from the state of the
request at the time of `Do`. -/
theorem outbound_header_of_state (env : Transport) (r : Request) (h : List (String × String))
    (k v : String) (hh : r.headers = some h) (hwf : KeysNodup h) (hget : mapGet h k = some v)
    (huniq : ∀ k1 ∈ h.map Prod.fst,
      textproto.CanonicalMIMEHeaderKey k1 = textproto.CanonicalMIMEHeaderKey k → k1 = k)
    (hct : textproto.CanonicalMIMEHeaderKey k = "Content-Type" → ¬ writesContentType r)
    (hck : textproto.CanonicalMIMEHeaderKey k = "Cookie" → r.cookies.entries = [])
    (hau : textproto.CanonicalMIMEHeaderKey k = "Authorization" → r.isUseBaseAuth = false) :
    ∃ res r1, Request.Do.outbound env r = .ok (res, r1) ∧
      ∀ out, res = .ok out → http.Header.Values out.Header k = [v] := by
  obtain ⟨b, r1, hb, hcook, hauth, hcase⟩ := bodyReader_cases r h hh
  -- the headers map at the time of the loop
  have hstate : ∃ h1, r1.headers = some h1 ∧ KeysNodup h1 ∧ mapGet h1 k = some v ∧
      ∀ k1 ∈ h1.map Prod.fst,
        textproto.CanonicalMIMEHeaderKey k1 = textproto.CanonicalMIMEHeaderKey k → k1 = k := by
    rcases hcase with ⟨-, h1⟩ | ⟨hw, x, h1⟩
    · exact ⟨h, h1, hwf, hget, huniq⟩
    · have hcanon : textproto.CanonicalMIMEHeaderKey "Content-Type" = "Content-Type" := by decide
      have hc : textproto.CanonicalMIMEHeaderKey k ≠ "Content-Type" := fun e => hct e hw
      have hk : k ≠ "Content-Type" := by
        intro e
        rw [e] at hc
        exact hc hcanon
      refine ⟨_, h1, keysNodup_mapSet h _ _ hwf, ?_, ?_⟩
      · rw [mapGet_mapSet_ne h _ k x hk]
        exact hget
      · intro k1 hk1 he
        rcases mem_keys_mapSet h _ _ k1 hk1 with h2 | h2
        · exact huniq k1 h2 he
        · rw [h2, hcanon] at he
          exact absurd he.symm hc
  obtain ⟨h1, hh1, hwf1, hget1, huniq1⟩ := hstate
  unfold Request.Do.outbound
  rw [hb]
  dsimp only
  cases hn : http.NewRequest env r1.method r1.url b with
  | error e => exact ⟨_, _, rfl, fun out ho => by cases ho⟩
  | ok req =>
    refine ⟨_, _, rfl, ?_⟩
    intro out ho
    cases ho
    unfold http.Header.Values
    rw [setAuth_get r1 _ _ (fun e => by rw [hauth]; exact hau e),
      addCookies_get env r1 _ _ (fun e => by rw [hcook]; exact hck e)]
    show Option.getD (mapGet (Request.Do.setHeaders r1 req).Header _) [] = [v]
    rw [setHeaders_Header, newRequest_Header env _ _ _ _ hn, hh1]
    simp only [GoMap.entries]
    rw [foldl_Set_get h1 [] k v ?_ (mem_of_mapGet h1 k v hget1)]
    · rfl
    · intro kv hkv he
      have e1 : kv.1 = k := huniq1 kv.1 (List.mem_map_of_mem Prod.fst hkv) he
      have e2 : mapGet h1 kv.1 = some kv.2 := mapGet_of_mem h1 kv.1 kv.2 hwf1 hkv
      rw [e1, hget1] at e2
      cases e2
      exact Prod.ext e1 rfl

/-- C3, refuted as stated.  On a JSON-declared POST the last `Header` call for
Content-Type gave text/csv, and the outbound request carries
application/json: `Do` overwrites the entry while it serializes the body. -/
theorem Do_header_last_call_counterexample :
    ∃ r0 r, Post "http://h/p" none JSON (.str "a,b") = .ok r0 ∧
      r0.calls [.Header "Content-Type" "text/csv"] = .ok r ∧
      r.headers.get "Content-Type" = some "text/csv" ∧
      Request.Do.sentValues demoTransport r "Content-Type" = some ["application/json"] :=
  ⟨_, _, rfl, rfl, by decide, by decide⟩

/-- C3, amended.  Take a chain of calls in which the last `Header` call for
`k` gave `v`, on a request whose headers map is initialised.  If `k` is the
only key of the headers map with its canonical form, and that form is not
Content-Type when `Do` writes a Content-Type, not Cookie when cookies are set,
and not Authorization when basic authentication is on, then `Do` does not
panic and the outbound request it builds carries exactly `v` for `k`. -/
theorem Do_header_last_call (env : Transport) (r0 r : Request) (pre post : List Call)
    (k v : String) (hwf : r0.headers.WF)
    (hr : r0.calls (pre ++ Call.Header k v :: post) = .ok r)
    (hpost : ∀ v1, Call.Header k v1 ∉ post)
    (huniq : ∀ k1 ∈ r.headers.entries.map Prod.fst,
      textproto.CanonicalMIMEHeaderKey k1 = textproto.CanonicalMIMEHeaderKey k → k1 = k)
    (hct : textproto.CanonicalMIMEHeaderKey k = "Content-Type" → ¬ writesContentType r)
    (hck : textproto.CanonicalMIMEHeaderKey k = "Cookie" → r.cookies.entries = [])
    (hau : textproto.CanonicalMIMEHeaderKey k = "Authorization" → r.isUseBaseAuth = false) :
    ∃ res r1, Request.Do.outbound env r = .ok (res, r1) ∧
      ∀ out, res = .ok out → http.Header.Values out.Header k = [v] := by
  have hget : r.headers.get k = some v := calls_last_Header r0 r pre post k v hr hpost
  have hwf1 : r.headers.WF := calls_headers_WF _ r0 r hwf hr
  cases hh : r.headers with
  | none => rw [hh] at hget; cases hget
  | some h =>
    rw [hh] at hget hwf1 huniq
    exact outbound_header_of_state env r h k v hh hwf1 hget huniq hct hck hau

/-- C3, amended, at a GET request on which foo is set twice, then a cookie
and basic authentication: the outbound request carries bar for foo. -/
theorem Do_header_last_call_witness :
    (∃ res r1, Request.Do.outbound demoTransport
        { (Get "http://h/p" none) with
          headers := some [("foo", "bar"), ("Accept", "text/html")],
          cookies := some [("c", "1")], authUsername := "u", authPassword := "p",
          isUseBaseAuth := true } = .ok (res, r1) ∧
      ∀ out, res = .ok out → http.Header.Values out.Header "foo" = ["bar"]) ∧
    Request.Do.sentValues demoTransport
      { (Get "http://h/p" none) with
        headers := some [("foo", "bar"), ("Accept", "text/html")],
        cookies := some [("c", "1")], authUsername := "u", authPassword := "p",
        isUseBaseAuth := true } "foo" = some ["bar"] :=
  ⟨Do_header_last_call demoTransport (Get "http://h/p" none) _
      [.Header "foo" "old", .Header "Accept" "text/html"]
      [.Cookie "c" "1", .BaseAuth "u" "p"] "foo" "bar" (by decide) rfl
      (by intro v1 h; simp at h) (by decide) (by decide) (by decide) (by decide),
    by decide⟩

/-! ## Body payloads and the convenience constructors -/

/-- C11. One `Body` call populates at most one of the body fields and the raw
body.  A string payload sets the raw body to that string and leaves every
other field, the body fields among them, as it was.  A map payload, and a
struct payload whose fields are exported, change the body fields alone.
Whenever `Body` returns on a payload that is not a string, the raw body is as
it was.  A payload of any other shape, nil included, leaves the whole request
unchanged. -/
theorem Body_populates_one (r : Request) (p : GoValue) :
    (∀ s, p = .str s → r.Body p = .ok { r with raw_data := s }) ∧
    (∀ m, p = .mapSI m → ∃ d, r.Body p = .ok { r with data := d }) ∧
    (∀ fs, p = .struct fs → (∀ f ∈ fs, f.exported = true) →
      ∃ d, r.Body p = .ok { r with data := d }) ∧
    (∀ r1, r.Body p = .ok r1 → (∀ s, p ≠ .str s) → r1.raw_data = r.raw_data) ∧
    (∀ r1, r.Body p = .ok r1 → r1.raw_data = r.raw_data ∨ r1.data = r.data) ∧
    (p = .nil ∨ (∃ b, p = .bool b) ∨ (∃ n, p = .int n) → r.Body p = .ok r) := by
  refine ⟨?_, ?_, ?_, ?_, ?_, ?_⟩
  · rintro s rfl
    rfl
  · rintro m rfl
    simp only [Request.Body, Request.addDataAsMap]
    cases r.data <;> exact ⟨_, rfl⟩
  · rintro fs rfl hex
    simp only [Request.Body, Request.addDataAsStruct]
    rw [addDataAsStruct_loop_exported fs _ hex]
    exact ⟨_, rfl⟩
  · intro r1 h hs
    cases p with
    | nil => cases h; rfl
    | bool b => cases h; rfl
    | int n => cases h; rfl
    | str s => exact absurd rfl (hs s)
    | mapSS m => cases h
    | mapSI m =>
      cases h
      unfold Request.addDataAsMap
      cases r.data <;> rfl
    | struct fs =>
      simp only [Request.Body, Request.addDataAsStruct] at h
      split at h
      · cases h
      · cases h; rfl
  · intro r1 h
    cases p with
    | nil => cases h; exact Or.inl rfl
    | bool b => cases h; exact Or.inl rfl
    | int n => cases h; exact Or.inl rfl
    | str s => cases h; exact Or.inr rfl
    | mapSS m => cases h
    | mapSI m =>
      cases h
      unfold Request.addDataAsMap
      cases r.data <;> exact Or.inl rfl
    | struct fs =>
      simp only [Request.Body, Request.addDataAsStruct] at h
      split at h
      · cases h
      · cases h; exact Or.inl rfl
  · rintro (rfl | ⟨b, rfl⟩ | ⟨n, rfl⟩) <;> rfl

/-- C15. Each constructor without a body gives the state that the generic
constructor followed by `Url` and `Query` gives, for every URL and every query
mapping, the nil mapping included. -/
theorem convenience_constructors_refine_New (url : String) (q : GoMap String) :
    Get url q = ((New GET).Url url).Query q ∧
    Head url q = ((New HEAD).Url url).Query q ∧
    Delete url q = ((New DELETE).Url url).Query q ∧
    Options url q = ((New OPTIONS).Url url).Query q :=
  ⟨rfl, rfl, rfl, rfl⟩

/-! ## Frames of the mutators and of body serialization -/

theorem mapSet_mapSet_same {α : Type} (m : List (String × α)) (k : String) (v : α) :
    mapSet (mapSet m k v) k v = mapSet m k v := by
  induction m with
  | nil => simp [mapSet]
  | cons hd tl ih =>
    obtain ⟨k1, v1⟩ := hd
    by_cases h : k1 = k
    · subst h
      simp [mapSet]
    · simp [mapSet, h, ih]

/-- C16. Each mutator changes its own part of the request and nothing else.
`Url` changes the url.  `Header(k, v)` on an initialised headers map changes
the entry for `k` of that map: `k` then holds `v` and every other key holds
what it held; on a nil map it panics.  `Cookie(k, v)` does the same on the
cookies map.  `Query` changes the query mapping.  `BaseAuth` changes the
username, the password and the flag. -/
theorem mutators_frame (r : Request) :
    (∀ u, r.Url u = { r with url := u }) ∧
    (∀ k v h, r.headers = some h →
      r.Header k v = .ok { r with headers := some (mapSet h k v) } ∧
      mapGet (mapSet h k v) k = some v ∧
      ∀ k1, k1 ≠ k → mapGet (mapSet h k v) k1 = mapGet h k1) ∧
    (∀ k v, r.headers = none → r.Header k v = .error .nilMapAssignment) ∧
    (∀ k v c, r.cookies = some c →
      r.Cookie k v = .ok { r with cookies := some (mapSet c k v) } ∧
      mapGet (mapSet c k v) k = some v ∧
      ∀ k1, k1 ≠ k → mapGet (mapSet c k v) k1 = mapGet c k1) ∧
    (∀ k v, r.cookies = none → r.Cookie k v = .error .nilMapAssignment) ∧
    (∀ p, r.Query p = { r with query := (r.Query p).query }) ∧
    (∀ u p, r.BaseAuth u p =
      { r with authUsername := u, authPassword := p, isUseBaseAuth := true }) := by
  refine ⟨fun _ => rfl, ?_, ?_, ?_, ?_, ?_, fun _ _ => rfl⟩
  · intro k v h hh
    refine ⟨?_, mapGet_mapSet_self h k v, fun k1 hk => mapGet_mapSet_ne h k k1 v hk⟩
    simp only [Request.Header, hh]
  · intro k v hh
    simp only [Request.Header, hh]
  · intro k v c hc
    refine ⟨?_, mapGet_mapSet_self c k v, fun k1 hk => mapGet_mapSet_ne c k k1 v hk⟩
    simp only [Request.Cookie, hc]
  · intro k v hc
    simp only [Request.Cookie, hc]
  · intro p
    unfold Request.Query
    cases r.query <;> rfl

/-- A second `prepareRequestBody`, on a request whose Content-Type entry the
first call has written. -/
theorem prepare_after_set (r r1 : Request) (h : List (String × String)) (x : String)
    (b : Option String) (hh : r.headers = some h)
    (hr1 : r1 = { r with headers := some (mapSet h "Content-Type" x) })
    (h2 : ∀ h1, r1.headers = some h1 →
      r1.prepareRequestBody = .ok (b, { r1 with headers := some (mapSet h1 "Content-Type" x) })) :
    r1.prepareRequestBody = .ok (b, r1) ∧
      r1 = { r with headers := r1.headers } ∧
      ∀ k, k ≠ "Content-Type" → r1.headers.get k = r.headers.get k := by
  subst hr1
  refine ⟨?_, rfl, ?_⟩
  · rw [h2 _ rfl]
    simp only [mapSet_mapSet_same]
  · intro k hk
    rw [hh]
    exact mapGet_mapSet_ne h _ k x hk

/-- C18. `prepareRequestBody` touches the headers map alone, and there the
entry for Content-Type alone; a second call returns the same bytes and leaves
the request as the first call left it.  On a request whose headers map is
initialised the call returns. -/
theorem prepareRequestBody_idempotent (r : Request) :
    (∀ b r1, r.prepareRequestBody = .ok (b, r1) →
      r1.prepareRequestBody = .ok (b, r1) ∧
      r1 = { r with headers := r1.headers } ∧
      ∀ k, k ≠ "Content-Type" → r1.headers.get k = r.headers.get k) ∧
    (∀ h, r.headers = some h → ∃ b r1, r.prepareRequestBody = .ok (b, r1)) := by
  refine ⟨?_, ?_⟩
  · intro b r1 hp
    rcases Option.eq_none_or_eq_some r.headers with hh | ⟨h, hh⟩
    · by_cases hc : r.ctype = JSON ∨ r.ctype = XML ∨ r.ctype = TEXT ∨ r.ctype = FORM
      · rw [prepareRequestBody_nil_headers r hh hc] at hp
        cases hp
      · have ho : r.ctype ≠ JSON ∧ r.ctype ≠ XML ∧ r.ctype ≠ TEXT ∧ r.ctype ≠ FORM :=
          ⟨fun e => hc (Or.inl e), fun e => hc (Or.inr (Or.inl e)),
            fun e => hc (Or.inr (Or.inr (Or.inl e))), fun e => hc (Or.inr (Or.inr (Or.inr e)))⟩
        rw [prepareRequestBody_other r ho] at hp
        cases hp
        exact ⟨prepareRequestBody_other r ho, rfl, fun _ _ => rfl⟩
    · by_cases h0 : r.ctype = JSON
      · rw [prepareRequestBody_json r h hh h0] at hp
        cases hp
        exact prepare_after_set r _ h _ _ hh rfl
          (fun h1 e => prepareRequestBody_json _ h1 e h0)
      by_cases h1 : r.ctype = XML
      · rw [prepareRequestBody_xml r h hh h1] at hp
        cases hp
        exact prepare_after_set r _ h _ _ hh rfl
          (fun h1 e => prepareRequestBody_xml _ h1 e (by assumption))
      by_cases h2 : r.ctype = TEXT
      · rw [prepareRequestBody_text r h hh h2] at hp
        cases hp
        exact prepare_after_set r _ h _ _ hh rfl
          (fun h1 e => prepareRequestBody_text _ h1 e h2)
      by_cases h3 : r.ctype = FORM
      · rw [prepareRequestBody_form r h hh h3] at hp
        cases hp
        exact prepare_after_set r _ h _ _ hh rfl
          (fun h1 e => prepareRequestBody_form _ h1 e h3)
      rw [prepareRequestBody_other r ⟨h0, h1, h2, h3⟩] at hp
      cases hp
      exact ⟨prepareRequestBody_other r ⟨h0, h1, h2, h3⟩, rfl, fun _ _ => rfl⟩
  · intro h hh
    by_cases h0 : r.ctype = JSON
    · exact ⟨_, _, prepareRequestBody_json r h hh h0⟩
    by_cases h1 : r.ctype = XML
    · exact ⟨_, _, prepareRequestBody_xml r h hh h1⟩
    by_cases h2 : r.ctype = TEXT
    · exact ⟨_, _, prepareRequestBody_text r h hh h2⟩
    by_cases h3 : r.ctype = FORM
    · exact ⟨_, _, prepareRequestBody_form r h hh h3⟩
    exact ⟨_, _, prepareRequestBody_other r ⟨h0, h1, h2, h3⟩⟩

/-! ## Constructed requests -/

/-- What `Body` may change are the body fields and the raw body. -/
theorem Body_frame (r r1 : Request) (p : GoValue) (h : r.Body p = .ok r1) :
    r1 = { r with data := r1.data, raw_data := r1.raw_data } := by
  cases p with
  | nil => cases h; rfl
  | bool b => cases h; rfl
  | int n => cases h; rfl
  | str s => cases h; rfl
  | mapSS m => cases h
  | mapSI m =>
    cases h
    unfold Request.addDataAsMap
    cases r.data <;> rfl
  | struct fs =>
    simp only [Request.Body, Request.addDataAsStruct] at h
    split at h
    · cases h
    · cases h; rfl

theorem loop_error (fs : List (Field GoValue)) (d : List (String × GoValue)) (e : Panic)
    (h : Request.addDataAsStruct.loop fs d = .error e) : e = .unexportedField := by
  induction fs generalizing d with
  | nil => cases h
  | cons f tl ih =>
    simp only [Request.addDataAsStruct.loop] at h
    split at h
    · exact ih _ h
    · cases h; rfl

/-- The panics of `Body`: a failed type assertion or an unexported field, never
a write to a nil map. -/
theorem Body_error (r : Request) (p : GoValue) (e : Panic) (h : r.Body p = .error e) :
    e = .interfaceConversion ∨ e = .unexportedField := by
  cases p with
  | nil => cases h
  | bool b => cases h
  | int n => cases h
  | str s => cases h
  | mapSS m => cases h; exact Or.inl rfl
  | mapSI m => cases h
  | struct fs =>
    simp only [Request.Body, Request.addDataAsStruct] at h
    split at h
    · rename_i e1 he
      cases h
      exact Or.inr (loop_error fs _ _ he)
    · cases h

/-- A constructor leaves the headers and cookies maps initialised, basic
authentication off and the credentials empty. -/
theorem Constructor_run_state (c : Constructor) (r0 : Request) (h : c.run = .ok r0) :
    r0.headers = some [] ∧ r0.cookies = some [] ∧ r0.isUseBaseAuth = false ∧
      r0.authUsername = "" ∧ r0.authPassword = "" := by
  cases c with
  | New m => cases h; exact ⟨rfl, rfl, rfl, rfl, rfl⟩
  | Get u q => cases h; exact ⟨rfl, rfl, rfl, rfl, rfl⟩
  | Head u q => cases h; exact ⟨rfl, rfl, rfl, rfl, rfl⟩
  | Delete u q => cases h; exact ⟨rfl, rfl, rfl, rfl, rfl⟩
  | Options u q => cases h; exact ⟨rfl, rfl, rfl, rfl, rfl⟩
  | Post u q ct d =>
    have e := Body_frame _ r0 d h
    rw [e]
    exact ⟨rfl, rfl, rfl, rfl, rfl⟩
  | Put u q ct d =>
    have e := Body_frame _ r0 d h
    rw [e]
    exact ⟨rfl, rfl, rfl, rfl, rfl⟩
  | Patch u q ct d =>
    have e := Body_frame _ r0 d h
    rw [e]
    exact ⟨rfl, rfl, rfl, rfl, rfl⟩

theorem Constructor_run_error (c : Constructor) (e : Panic) (h : c.run = .error e) :
    e = .interfaceConversion ∨ e = .unexportedField := by
  cases c with
  | New m => cases h
  | Get u q => cases h
  | Head u q => cases h
  | Delete u q => cases h
  | Options u q => cases h
  | Post u q ct d => exact Body_error _ d e h
  | Put u q ct d => exact Body_error _ d e h
  | Patch u q ct d => exact Body_error _ d e h

/-- A call keeps the headers and cookies maps initialised. -/
theorem call_maps_initialised (r r1 : Request) (c : Call)
    (hh : r.headers.isSome = true) (hc : r.cookies.isSome = true) (h : r.call c = .ok r1) :
    r1.headers.isSome = true ∧ r1.cookies.isSome = true := by
  cases c with
  | Url u => cases h; exact ⟨hh, hc⟩
  | Query p =>
    cases h
    unfold Request.Query
    cases r.query <;> exact ⟨hh, hc⟩
  | BaseAuth u p => cases h; exact ⟨hh, hc⟩
  | Body p =>
    have e := Body_frame r r1 p h
    rw [e]
    exact ⟨hh, hc⟩
  | Cookie k v =>
    simp only [Request.call, Request.Cookie] at h
    split at h
    · cases h
    · cases h; exact ⟨hh, rfl⟩
  | Header k v =>
    simp only [Request.call, Request.Header] at h
    split at h
    · cases h
    · cases h; exact ⟨rfl, hc⟩

/-- On initialised headers and cookies maps, a call panics only in `Body`. -/
theorem call_error (r : Request) (c : Call) (e : Panic)
    (hh : r.headers.isSome = true) (hc : r.cookies.isSome = true) (h : r.call c = .error e) :
    e = .interfaceConversion ∨ e = .unexportedField := by
  cases c with
  | Url u => cases h
  | Query p => cases h
  | BaseAuth u p => cases h
  | Body p => exact Body_error r p e h
  | Cookie k v =>
    simp only [Request.call, Request.Cookie] at h
    split at h
    · rename_i hn
      rw [hn] at hc
      cases hc
    · cases h
  | Header k v =>
    simp only [Request.call, Request.Header] at h
    split at h
    · rename_i hn
      rw [hn] at hh
      cases hh
    · cases h

theorem calls_maps_initialised (cs : List Call) (r r1 : Request)
    (hh : r.headers.isSome = true) (hc : r.cookies.isSome = true) (h : r.calls cs = .ok r1) :
    r1.headers.isSome = true ∧ r1.cookies.isSome = true := by
  induction cs generalizing r with
  | nil => cases h; exact ⟨hh, hc⟩
  | cons c tl ih =>
    simp only [Request.calls] at h
    cases hcall : r.call c with
    | error p => rw [hcall] at h; cases h
    | ok r2 =>
      rw [hcall] at h
      obtain ⟨h2, c2⟩ := call_maps_initialised r r2 c hh hc hcall
      exact ih r2 h2 c2 h

theorem calls_error (cs : List Call) (r : Request) (e : Panic)
    (hh : r.headers.isSome = true) (hc : r.cookies.isSome = true) (h : r.calls cs = .error e) :
    e = .interfaceConversion ∨ e = .unexportedField := by
  induction cs generalizing r with
  | nil => cases h
  | cons c tl ih =>
    simp only [Request.calls] at h
    cases hcall : r.call c with
    | error p =>
      rw [hcall] at h
      cases h
      exact call_error r c e hh hc hcall
    | ok r2 =>
      rw [hcall] at h
      obtain ⟨h2, c2⟩ := call_maps_initialised r r2 c hh hc hcall
      exact ih r2 h2 c2 h

/-- C17. A request that a constructor returned and a chain of mutator calls
then changed has its headers and cookies maps initialised: `Header`, `Cookie`
and `prepareRequestBody` return on it.  While the query is nil, `Query` stores
its argument; while the body fields are nil, `Body` stores a map payload and
builds a map for a struct payload with exported fields.  No constructor and no
further chain of calls ever panics with a write to a nil map. -/
theorem constructed_maps_initialised (c : Constructor) (cs : List Call) (r0 r : Request)
    (h0 : c.run = .ok r0) (hr : r0.calls cs = .ok r) :
    (∃ h, r.headers = some h) ∧ (∃ ck, r.cookies = some ck) ∧
    (∀ k v, ∃ r1, r.Header k v = .ok r1) ∧
    (∀ k v, ∃ r1, r.Cookie k v = .ok r1) ∧
    (∃ b r1, r.prepareRequestBody = .ok (b, r1)) ∧
    (∀ p, r.query = none → r.Query p = { r with query := p }) ∧
    (∀ m, r.data = none → r.Body (.mapSI m) = .ok { r with data := m }) ∧
    (∀ fs, r.data = none → (∀ f ∈ fs, f.exported = true) →
      ∃ d, r.Body (.struct fs) = .ok { r with data := some d }) ∧
    (∀ p, r.Body p ≠ .error .nilMapAssignment) ∧
    (∀ cs2, r.calls cs2 ≠ .error .nilMapAssignment) ∧
    (∀ c2 : Constructor, c2.run ≠ .error .nilMapAssignment) := by
  obtain ⟨hh0, hc0, -, -, -⟩ := Constructor_run_state c r0 h0
  obtain ⟨hh, hc⟩ := calls_maps_initialised cs r0 r (by rw [hh0]; rfl) (by rw [hc0]; rfl) hr
  obtain ⟨h, hh1⟩ := Option.isSome_iff_exists.1 hh
  obtain ⟨ck, hc1⟩ := Option.isSome_iff_exists.1 hc
  refine ⟨⟨h, hh1⟩, ⟨ck, hc1⟩, ?_, ?_, ?_, ?_, ?_, ?_, ?_, ?_, ?_⟩
  · intro k v
    exact ⟨{ r with headers := some (mapSet h k v) }, by simp only [Request.Header, hh1]⟩
  · intro k v
    exact ⟨{ r with cookies := some (mapSet ck k v) }, by simp only [Request.Cookie, hc1]⟩
  · by_cases c0 : r.ctype = JSON
    · exact ⟨_, _, prepareRequestBody_json r h hh1 c0⟩
    by_cases c1 : r.ctype = XML
    · exact ⟨_, _, prepareRequestBody_xml r h hh1 c1⟩
    by_cases c2 : r.ctype = TEXT
    · exact ⟨_, _, prepareRequestBody_text r h hh1 c2⟩
    by_cases c3 : r.ctype = FORM
    · exact ⟨_, _, prepareRequestBody_form r h hh1 c3⟩
    exact ⟨_, _, prepareRequestBody_other r ⟨c0, c1, c2, c3⟩⟩
  · intro p hq
    simp only [Request.Query, hq]
  · intro m hd
    simp only [Request.Body, Request.addDataAsMap, hd]
  · intro fs hd hex
    simp only [Request.Body, Request.addDataAsStruct, hd]
    rw [addDataAsStruct_loop_exported fs _ hex]
    exact ⟨_, rfl⟩
  · intro p hp
    rcases Body_error r p _ hp with e | e <;> cases e
  · intro cs2 hp
    rcases calls_error cs2 r _ hh hc hp with e | e <;> cases e
  · intro c2 hp
    rcases Constructor_run_error c2 _ hp with e | e <;> cases e

/-- C17, at `Post` with a string payload followed by `Query`, `Header`,
`Cookie` and `Body` with a struct: every call returns, and so does
`prepareRequestBody`. -/
theorem constructed_maps_initialised_witness :
    ∃ r0 r, (Constructor.Post "http://h/p" none FORM (.str "raw")).run = .ok r0 ∧
      r0.calls [.Query (some [("a", "1")]), .Header "X" "y", .Cookie "c" "1",
        .Body (.struct [⟨"Foo", true, .str "bar"⟩])] = .ok r ∧
      r.headers = some [("X", "y")] ∧ r.cookies = some [("c", "1")] ∧
      r.query = some [("a", "1")] ∧ r.data = some [("foo", .str "bar")] ∧
      ∃ b r1, r.prepareRequestBody = .ok (b, r1) :=
  ⟨_, _, rfl, rfl, rfl, rfl, rfl, rfl,
    (constructed_maps_initialised (Constructor.Post "http://h/p" none FORM (.str "raw"))
      [.Query (some [("a", "1")]), .Header "X" "y", .Cookie "c" "1",
        .Body (.struct [⟨"Foo", true, .str "bar"⟩])] _ _ rfl rfl).2.2.2.2.1⟩

/-! ## Basic authentication -/

theorem base64_value_digit : ∀ n, n < 64 → base64.value (base64.digit n) = some n := by
  decide

theorem base64_digit_ne_pad : ∀ n, n < 64 → base64.digit n ≠ '=' := by
  decide

theorem base64_decode_encode (bs : List Nat) (hb : ∀ b ∈ bs, b < 256) :
    base64.decodeChars (base64.encodeBytes bs) = some bs := by
  induction bs using base64.encodeBytes.induct with
  | case1 => rfl
  | case2 a =>
    have ha : a < 256 := hb a (by simp)
    simp only [base64.encodeBytes, base64.decodeChars,
      base64_value_digit (a / 4) (by omega), base64_value_digit (a % 4 * 16) (by omega)]
    simp
    omega
  | case3 a b =>
    have ha : a < 256 := hb a (by simp)
    have hb2 : b < 256 := hb b (by simp)
    simp only [base64.encodeBytes, base64.decodeChars,
      base64_value_digit (a / 4) (by omega), base64_value_digit (a % 4 * 16 + b / 16) (by omega),
      base64_value_digit (b % 16 * 4) (by omega),
      if_neg (base64_digit_ne_pad (b % 16 * 4) (by omega))]
    simp
    omega
  | case4 a b c rest ih =>
    have ha : a < 256 := hb a (by simp)
    have hb2 : b < 256 := hb b (by simp)
    have hc : c < 256 := hb c (by simp)
    have ih2 := ih (fun x hx => hb x (by simp [hx]))
    simp only [base64.encodeBytes, base64.decodeChars,
      base64_value_digit (a / 4) (by omega), base64_value_digit (a % 4 * 16 + b / 16) (by omega),
      base64_value_digit (b % 16 * 4 + c / 64) (by omega),
      base64_value_digit (c % 64) (by omega),
      if_neg (base64_digit_ne_pad (b % 16 * 4 + c / 64) (by omega)),
      if_neg (base64_digit_ne_pad (c % 64) (by omega)), ih2]
    simp
    omega

theorem utf8Bytes_lt (c : Char) : ∀ b ∈ utf8Bytes c, b < 256 := by
  have hv : c.toNat < 1114112 := by
    have h := c.valid
    simp only [UInt32.isValidChar, Nat.isValidChar] at h
    show c.val.toNat < 1114112
    omega
  intro b hb
  unfold utf8Bytes at hb
  simp only at hb
  split_ifs at hb <;> simp at hb <;> omega

theorem stringBytes_lt (s : String) : ∀ b ∈ stringBytes s, b < 256 := by
  intro b hb
  unfold stringBytes at hb
  obtain ⟨c, -, hc⟩ := List.mem_flatMap.1 hb
  exact utf8Bytes_lt c b hc

/-- Decoding what `EncodeToString` wrote gives back the bytes of the string. -/
theorem base64_DecodeString_EncodeToString (s : String) :
    base64.DecodeString (base64.EncodeToString s) = some (stringBytes s) :=
  base64_decode_encode (stringBytes s) (stringBytes_lt s)

/-- A call other than `BaseAuth` leaves the flag and the credentials. -/
theorem call_auth (r r1 : Request) (c : Call) (hc : ∀ u p, c ≠ Call.BaseAuth u p)
    (h : r.call c = .ok r1) :
    r1.isUseBaseAuth = r.isUseBaseAuth ∧ r1.authUsername = r.authUsername ∧
      r1.authPassword = r.authPassword := by
  cases c with
  | Url u => cases h; exact ⟨rfl, rfl, rfl⟩
  | Query p =>
    cases h
    unfold Request.Query
    cases r.query <;> exact ⟨rfl, rfl, rfl⟩
  | BaseAuth u p => exact absurd rfl (hc u p)
  | Body p =>
    have e := Body_frame r r1 p h
    rw [e]
    exact ⟨rfl, rfl, rfl⟩
  | Cookie k v =>
    simp only [Request.call, Request.Cookie] at h
    split at h
    · cases h
    · cases h; exact ⟨rfl, rfl, rfl⟩
  | Header k v =>
    simp only [Request.call, Request.Header] at h
    split at h
    · cases h
    · cases h; exact ⟨rfl, rfl, rfl⟩

theorem calls_auth (cs : List Call) (r r1 : Request) (hc : ∀ u p, Call.BaseAuth u p ∉ cs)
    (h : r.calls cs = .ok r1) :
    r1.isUseBaseAuth = r.isUseBaseAuth ∧ r1.authUsername = r.authUsername ∧
      r1.authPassword = r.authPassword := by
  induction cs generalizing r with
  | nil => cases h; exact ⟨rfl, rfl, rfl⟩
  | cons c tl ih =>
    simp only [Request.calls] at h
    cases hcall : r.call c with
    | error p => rw [hcall] at h; cases h
    | ok r2 =>
      rw [hcall] at h
      obtain ⟨a1, a2, a3⟩ := ih r2 (fun u p hm => hc u p (List.mem_cons_of_mem _ hm)) h
      obtain ⟨b1, b2, b3⟩ := call_auth r r2 c
        (fun u p e => hc u p (e ▸ List.mem_cons_self _ _)) hcall
      exact ⟨a1.trans b1, a2.trans b2, a3.trans b3⟩

/-- After a chain whose last `BaseAuth` call gave `u` and `p`, the flag is on
and the credentials are `u` and `p`. -/
theorem calls_last_BaseAuth (r0 r : Request) (pre post : List Call) (u p : String)
    (hr : r0.calls (pre ++ Call.BaseAuth u p :: post) = .ok r)
    (hpost : ∀ u1 p1, Call.BaseAuth u1 p1 ∉ post) :
    r.isUseBaseAuth = true ∧ r.authUsername = u ∧ r.authPassword = p := by
  rw [calls_append] at hr
  cases hpre : r0.calls pre with
  | error e => rw [hpre] at hr; cases hr
  | ok r1 =>
    rw [hpre] at hr
    simp only [Request.calls, Request.call] at hr
    obtain ⟨a1, a2, a3⟩ := calls_auth post _ r hpost hr
    exact ⟨a1, a2, a3⟩

/-- A chain of calls has a last `BaseAuth` call when it has one at all. -/
theorem exists_last_BaseAuth (cs : List Call) (h : ∃ u p, Call.BaseAuth u p ∈ cs) :
    ∃ pre post u p, cs = pre ++ Call.BaseAuth u p :: post ∧
      ∀ u1 p1, Call.BaseAuth u1 p1 ∉ post := by
  induction cs with
  | nil =>
    obtain ⟨u, p, hm⟩ := h
    cases hm
  | cons c tl ih =>
    by_cases ht : ∃ u p, Call.BaseAuth u p ∈ tl
    · obtain ⟨pre, post, u, p, e, hp⟩ := ih ht
      exact ⟨c :: pre, post, u, p, by rw [e]; rfl, hp⟩
    · obtain ⟨u, p, hm⟩ := h
      rcases List.mem_cons.1 hm with e | e
      · refine ⟨[], tl, u, p, by rw [← e]; rfl, ?_⟩
        intro u1 p1 hm1
        exact ht ⟨u1, p1, hm1⟩
      · exact absurd ⟨u, p, e⟩ ht

/-- C14. On a request that a constructor returned and a chain of mutator calls
then changed, basic authentication is on exactly when the chain has a
`BaseAuth` call, and the credentials are those of the last such call; the
constructor leaves it off and no other call changes the flag or the
credentials.  `Do` sets the Authorization header to Basic followed by the
base64 text of username, colon, password when the flag is on, and does not run
the statement when it is off.  The base64 text decodes to the bytes of
username, colon, password. -/
theorem BaseAuth_governs_Do (c : Constructor) (cs : List Call) (r0 r : Request)
    (h0 : c.run = .ok r0) (hr : r0.calls cs = .ok r) :
    r0.isUseBaseAuth = false ∧
    (r.isUseBaseAuth = true ↔ ∃ u p, Call.BaseAuth u p ∈ cs) ∧
    (∀ pre post u p, cs = pre ++ Call.BaseAuth u p :: post →
      (∀ u1 p1, Call.BaseAuth u1 p1 ∉ post) → r.authUsername = u ∧ r.authPassword = p) ∧
    (∀ c1 r2, (∀ u p, c1 ≠ Call.BaseAuth u p) → r.call c1 = .ok r2 →
      r2.isUseBaseAuth = r.isUseBaseAuth ∧ r2.authUsername = r.authUsername ∧
        r2.authPassword = r.authPassword) ∧
    (∀ env b r1 req, Request.Do.bodyReader r = .ok (b, r1) →
      http.NewRequest env r1.method r1.url b = .ok req →
      ∃ out, Request.Do.outbound env r = .ok (.ok out, r1) ∧
        (r.isUseBaseAuth = true → http.Header.Values out.Header "Authorization" =
          ["Basic " ++ base64.EncodeToString (r.authUsername ++ ":" ++ r.authPassword)]) ∧
        (r.isUseBaseAuth = false → out = Request.Do.addCookies env r1
          (Request.Do.setQuery r1 (Request.Do.setHeaders r1 req)))) ∧
    (∀ u p, base64.DecodeString (base64.EncodeToString (u ++ ":" ++ p)) =
      some (stringBytes (u ++ ":" ++ p))) := by
  obtain ⟨-, -, hf0, -, -⟩ := Constructor_run_state c r0 h0
  refine ⟨hf0, ?_, ?_, ?_, ?_, ?_⟩
  · constructor
    · intro hf
      by_contra hn
      have hno : ∀ u p, Call.BaseAuth u p ∉ cs := fun u p hm => hn ⟨u, p, hm⟩
      obtain ⟨a1, -, -⟩ := calls_auth cs r0 r hno hr
      rw [a1, hf0] at hf
      cases hf
    · intro hex
      obtain ⟨pre, post, u, p, e, hp⟩ := exists_last_BaseAuth cs hex
      rw [e] at hr
      exact (calls_last_BaseAuth r0 r pre post u p hr hp).1
  · intro pre post u p e hp
    rw [e] at hr
    exact (calls_last_BaseAuth r0 r pre post u p hr hp).2
  · intro c1 r2 hc h
    exact call_auth r r2 c1 hc h
  · intro env b r1 req hb hn
    obtain ⟨hd, e⟩ := bodyReader_frame r r1 b hb
    have ef : r1.isUseBaseAuth = r.isUseBaseAuth := by rw [e]
    have eu : r1.authUsername = r.authUsername := by rw [e]
    have ep : r1.authPassword = r.authPassword := by rw [e]
    refine ⟨Request.Do.setAuth r1 (Request.Do.addCookies env r1
      (Request.Do.setQuery r1 (Request.Do.setHeaders r1 req))), ?_, ?_, ?_⟩
    · simp only [Request.Do.outbound, hb, hn]
    · intro hf
      have hcanon : textproto.CanonicalMIMEHeaderKey "Authorization" = "Authorization" := by
        decide
      simp only [Request.Do.setAuth, ef, hf, if_true, http.SetBasicAuth, http.Header.Values,
        http.Header.Set, hcanon, mapGet_mapSet_self, Option.getD_some, eu, ep]
    · intro hf
      simp only [Request.Do.setAuth, ef, hf]
      rfl
  · intro u p
    exact base64_DecodeString_EncodeToString _

/-- C14, at `Get(url, nil).BaseAuth("foo", "bar")`: the flag is on, the
outbound request carries Basic Zm9vOmJhcg== for Authorization, and that text
decodes to the bytes of foo:bar. -/
theorem BaseAuth_governs_Do_witness :
    (((Get "http://h/auth" none).BaseAuth "foo" "bar").isUseBaseAuth = true) ∧
    (Request.Do.outbound demoTransport ((Get "http://h/auth" none).BaseAuth "foo" "bar")).toOption.bind
      (fun x => x.1.toOption.map (fun out => http.Header.Values out.Header "Authorization")) =
        some ["Basic Zm9vOmJhcg=="] ∧
    base64.DecodeString "Zm9vOmJhcg==" = some (stringBytes "foo:bar") :=
  ⟨(BaseAuth_governs_Do (Constructor.Get "http://h/auth" none) [.BaseAuth "foo" "bar"] _ _
      rfl rfl).2.1.2 ⟨"foo", "bar", List.mem_cons_self _ _⟩,
    by decide, by decide⟩

/-! ## Struct payloads -/

theorem mapGet_mapSet {α : Type} (m : List (String × α)) (k1 k : String) (v : α) :
    mapGet (mapSet m k1 v) k = if k1 = k then some v else mapGet m k := by
  by_cases h : k1 = k
  · subst h
    simp [mapGet_mapSet_self]
  · simp [h, mapGet_mapSet_ne m k1 k v (Ne.symm h)]

/-- Reading a key after the loop `for k, v := range params { m[k] = v }`, for
any list of assignments: the last assignment to the key wins. -/
theorem mapGet_mapMerge_last {α : Type} (p m : List (String × α)) (k : String) :
    mapGet (mapMerge m p) k =
      p.foldl (fun acc kv => if kv.1 = k then some kv.2 else acc) (mapGet m k) := by
  induction p generalizing m with
  | nil => rfl
  | cons hd tl ih =>
    have step : mapMerge m (hd :: tl) = mapMerge (mapSet m hd.1 hd.2) tl := rfl
    rw [step, ih, mapGet_mapSet]
    rfl

theorem structFields_foldl (fs : List (Field GoValue)) (k : String) (init : Option GoValue) :
    (fs.map (fun f => (strings.ToLower f.name, GoValue.str (fmt.Sprintf_v f.value)))).foldl
        (fun acc kv => if kv.1 = k then some kv.2 else acc) init =
      firstSome (structFieldValue fs k) init := by
  unfold structFieldValue
  rw [List.foldl_map]
  have gen : ∀ (l : List (Field GoValue)) (a b : Option GoValue),
      l.foldl (fun acc f =>
        if strings.ToLower f.name = k then some (GoValue.str (fmt.Sprintf_v f.value)) else acc)
        (firstSome a b) =
      firstSome (l.foldl (fun acc f =>
        if strings.ToLower f.name = k then some (GoValue.str (fmt.Sprintf_v f.value)) else acc)
        a) b := by
    intro l
    induction l with
    | nil => intro a b; rfl
    | cons f tl ih =>
      intro a b
      simp only [List.foldl_cons]
      by_cases h : strings.ToLower f.name = k
      · simp only [h, if_true]
        exact ih (some _) b
      · simp only [h, if_false]
        exact ih a b
  exact gen fs none init

/-- `Body` with a struct whose fields are all exported: the body fields give
each key the text of the last field that lower-cases to it, and keep every
other key. -/
theorem Body_struct_exported (r : Request) (fs : List (Field GoValue))
    (hex : ∀ f ∈ fs, f.exported = true) :
    ∃ d, r.Body (.struct fs) = .ok { r with data := some d } ∧
      ∀ k, mapGet d k = firstSome (structFieldValue fs k) (r.data.get k) := by
  simp only [Request.Body, Request.addDataAsStruct]
  rw [addDataAsStruct_loop_exported fs _ hex]
  refine ⟨_, rfl, ?_⟩
  intro k
  rw [mapGet_mapMerge_last, structFields_foldl]
  cases r.data <;> rfl

/-- C12, at the failing input, and what holds beside it.  `Body` panics on a
struct with a field that is not exported, so the body fields get no entry for
that field.  On a struct whose fields are all exported `Body` returns, each
key holds the text of the last field that lower-cases to it, every other key
holds its prior value, and nothing but the body fields changes. -/
theorem Body_struct_fields :
    (New POST).Body (.struct [⟨"Foo", true, .str "bar"⟩, ⟨"token", false, .str "t"⟩]) =
      .error .unexportedField ∧
    (∀ (r : Request) (fs : List (Field GoValue)), (∀ f ∈ fs, f.exported = true) →
      ∃ d, r.Body (.struct fs) = .ok { r with data := some d } ∧
        (∀ k, mapGet d k = firstSome (structFieldValue fs k) (r.data.get k)) ∧
        (∀ f ∈ fs, ∃ v, mapGet d (strings.ToLower f.name) = some v) ∧
        (∀ k, (∀ f ∈ fs, strings.ToLower f.name ≠ k) → mapGet d k = r.data.get k)) ∧
    (({ (New POST) with data := some [("foo", .str "old"), ("keep", .int 1)] } : Request).Body
      (.struct [⟨"Foo", true, .str "a"⟩, ⟨"FOO", true, .int 2⟩])).toOption.map
        (fun r => (r.data.get "foo").map fmt.Sprintf_v) = some (some "2") := by
  refine ⟨rfl, ?_, by decide⟩
  intro r fs hex
  obtain ⟨d, hd, hk⟩ := Body_struct_exported r fs hex
  refine ⟨d, hd, hk, ?_, ?_⟩
  · intro f hf
    rw [hk]
    have hsome : ∃ v, structFieldValue fs (strings.ToLower f.name) = some v := by
      unfold structFieldValue
      have gen : ∀ (l : List (Field GoValue)) (a : Option GoValue),
          ((∃ v, a = some v) ∨ f ∈ l) →
          ∃ v, l.foldl (fun acc g =>
            if strings.ToLower g.name = strings.ToLower f.name then
              some (GoValue.str (fmt.Sprintf_v g.value)) else acc) a = some v := by
        intro l
        induction l with
        | nil =>
          intro a h
          rcases h with h | h
          · exact h
          · cases h
        | cons g tl ih =>
          intro a h
          simp only [List.foldl_cons]
          apply ih
          by_cases hg : strings.ToLower g.name = strings.ToLower f.name
          · simp only [hg, if_true]
            exact Or.inl ⟨_, rfl⟩
          · simp only [hg, if_false]
            rcases h with h | h
            · exact Or.inl h
            · rcases List.mem_cons.1 h with e | e
              · exact absurd (by rw [e]) hg
              · exact Or.inr e
      exact gen fs none (Or.inr hf)
    obtain ⟨v, hv⟩ := hsome
    exact ⟨v, by rw [hv]; rfl⟩
  · intro k hne
    rw [hk]
    have hnone : structFieldValue fs k = none := by
      unfold structFieldValue
      have gen : ∀ (l : List (Field GoValue)), (∀ g ∈ l, strings.ToLower g.name ≠ k) →
          l.foldl (fun acc g =>
            if strings.ToLower g.name = k then
              some (GoValue.str (fmt.Sprintf_v g.value)) else acc) none = none := by
        intro l
        induction l with
        | nil => intro _; rfl
        | cons g tl ih =>
          intro h
          simp only [List.foldl_cons, h g (List.mem_cons_self _ _), if_false]
          exact ih (fun x hx => h x (List.mem_cons_of_mem _ hx))
      exact gen fs hne
    rw [hnone]
    rfl

/-! ## Bytes of strings and their order -/

theorem Char_toNat_lt (c : Char) : c.toNat < 1114112 := by
  have h := c.valid
  simp only [UInt32.isValidChar, Nat.isValidChar] at h
  show c.val.toNat < 1114112
  omega

theorem Char_toNat_injective (c d : Char) (h : c.toNat = d.toNat) : c = d := by
  have hc := Char.ofNat_toNat c
  have hd := Char.ofNat_toNat d
  rw [← hc, ← hd, h]

/-- UTF-8 is a prefix code: the bytes of a character followed by anything
determine the character and what follows. -/
theorem utf8Bytes_append_inj (c d : Char) (x y : List Nat)
    (h : utf8Bytes c ++ x = utf8Bytes d ++ y) : c = d ∧ x = y := by
  have hc := Char_toNat_lt c
  have hd := Char_toNat_lt d
  unfold utf8Bytes at h
  simp only at h
  split_ifs at h <;> simp only [List.cons_append, List.nil_append, List.cons.injEq] at h <;>
    first
    | (exfalso; omega)
    | (refine ⟨Char_toNat_injective c d (by omega), ?_⟩
       simp only [h])

theorem stringBytes_cons (c : Char) (cs : List Char) :
    stringBytes (String.mk (c :: cs)) = utf8Bytes c ++ stringBytes (String.mk cs) := by
  simp [stringBytes]

theorem utf8Bytes_ne_nil (c : Char) : utf8Bytes c ≠ [] := by
  unfold utf8Bytes
  simp only
  split_ifs <;> simp

/-- Strings with the same bytes are equal. -/
theorem stringBytes_injective (a b : String) (h : stringBytes a = stringBytes b) : a = b := by
  obtain ⟨la⟩ := a
  obtain ⟨lb⟩ := b
  induction la generalizing lb with
  | nil =>
    cases lb with
    | nil => rfl
    | cons d ds =>
      rw [stringBytes_cons] at h
      have : utf8Bytes d ++ stringBytes (String.mk ds) = [] := h.symm
      exact absurd (List.append_eq_nil.1 this).1 (utf8Bytes_ne_nil d)
  | cons c cs ih =>
    cases lb with
    | nil =>
      rw [stringBytes_cons] at h
      exact absurd (List.append_eq_nil.1 h).1 (utf8Bytes_ne_nil c)
    | cons d ds =>
      rw [stringBytes_cons, stringBytes_cons] at h
      obtain ⟨e1, e2⟩ := utf8Bytes_append_inj c d _ _ h
      have e3 := ih ds e2
      rw [e1]
      injection e3 with e4
      rw [e4]

theorem bytesLE_total (a b : List Nat) : bytesLE a b = true ∨ bytesLE b a = true := by
  induction a generalizing b with
  | nil => exact Or.inl (by cases b <;> rfl)
  | cons x xs ih =>
    cases b with
    | nil => exact Or.inr rfl
    | cons y ys =>
      simp only [bytesLE]
      rcases Nat.lt_trichotomy x y with h | h | h
      · simp [h]
      · subst h
        simpa using ih ys
      · have h2 : ¬ x < y := by omega
        simp [h, h2]

theorem bytesLE_trans (a b c : List Nat) (h1 : bytesLE a b = true) (h2 : bytesLE b c = true) :
    bytesLE a c = true := by
  induction a generalizing b c with
  | nil => cases c <;> rfl
  | cons x xs ih =>
    cases b with
    | nil => simp [bytesLE] at h1
    | cons y ys =>
      cases c with
      | nil => simp [bytesLE] at h2
      | cons z zs =>
        simp only [bytesLE] at h1 h2 ⊢
        by_cases hxy : x < y
        · by_cases hyz : y < z
          · have : x < z := by omega
            simp [this]
          · by_cases hzy : z < y
            · simp [hyz, hzy] at h2
            · have e : y = z := by omega
              subst e
              simp [hxy]
        · by_cases hyx : y < x
          · simp [hxy, hyx] at h1
          · have e : x = y := by omega
            subst e
            simp only [hxy, if_false] at h1
            by_cases hxz : x < z
            · simp [hxz]
            · by_cases hzx : z < x
              · simp [hxz, hzx] at h2
              · simp only [hxz, hzx, if_false] at h2 ⊢
                exact ih ys zs h1 h2

/-- The order `bytesLE` is the lexicographic order of lists: `a` comes no
later than `b` exactly when `b` is not lexicographically before `a`. -/
theorem bytesLE_iff_not_lex (a b : List Nat) :
    bytesLE a b = true ↔ ¬ List.Lex (fun x y : Nat => x < y) b a := by
  induction a generalizing b with
  | nil =>
    constructor
    · intro _ h
      cases h
    · intro _
      cases b <;> rfl
  | cons x xs ih =>
    cases b with
    | nil =>
      constructor
      · intro h
        simp [bytesLE] at h
      · intro h
        exact absurd List.Lex.nil h
    | cons y ys =>
      simp only [bytesLE]
      by_cases hxy : x < y
      · simp only [hxy, if_true, true_iff]
        intro h
        cases h with
        | cons h1 => omega
        | rel h1 => omega
      · by_cases hyx : y < x
        · simp only [hxy, hyx, if_true, if_false]
          constructor
          · intro h
            cases h
          · intro h
            exact absurd (List.Lex.rel hyx) h
        · have e : x = y := by omega
          subst e
          simp only [hxy, if_false]
          rw [ih ys]
          constructor
          · intro h h2
            cases h2 with
            | cons h3 => exact h h3
            | rel h3 => omega
          · intro h h2
            exact h (List.Lex.cons h2)

/-! ## Values of a query string -/

theorem Values_get_Add (q : url.Values) (k1 x k : List Nat) :
    url.Values.get (url.Values.Add q k1 x) k =
      if k = k1 then url.Values.get q k ++ [x] else url.Values.get q k := by
  induction q with
  | nil =>
    by_cases h : k = k1
    · subst h
      simp [url.Values.Add, url.Values.get]
    · have h2 : ¬ k1 = k := fun e => h e.symm
      simp [url.Values.Add, url.Values.get, h, h2]
  | cons hd tl ih =>
    obtain ⟨k0, vs⟩ := hd
    by_cases h0 : k0 = k1
    · subst h0
      by_cases h : k = k0
      · subst h
        simp [url.Values.Add, url.Values.get]
      · have h2 : ¬ k0 = k := fun e => h e.symm
        simp [url.Values.Add, url.Values.get, h, h2]
    · by_cases h : k = k1
      · subst h
        simp [url.Values.Add, url.Values.get, h0, ih]
      · by_cases h3 : k0 = k
        · simp [url.Values.Add, url.Values.get, h0, h, h3]
        · simp [url.Values.Add, url.Values.get, h0, h, h3, ih]

theorem Values_Add_fresh (q : url.Values) (k x : List Nat) (h : k ∉ q.map Prod.fst) :
    url.Values.Add q k x = q ++ [(k, [x])] := by
  induction q with
  | nil => rfl
  | cons hd tl ih =>
    obtain ⟨k0, vs⟩ := hd
    simp only [List.map_cons, List.mem_cons, not_or] at h
    simp [url.Values.Add, Ne.symm h.1, ih h.2]

theorem Values_get_of_mem (q : url.Values) (k : List Nat) (vs : List (List Nat))
    (hq : (q.map Prod.fst).Nodup) (h : (k, vs) ∈ q) : url.Values.get q k = vs := by
  induction q with
  | nil => cases h
  | cons hd tl ih =>
    obtain ⟨k0, v0⟩ := hd
    have hnd : k0 ∉ tl.map Prod.fst ∧ (tl.map Prod.fst).Nodup := by simpa using hq
    rcases List.mem_cons.1 h with h1 | h1
    · cases h1
      simp [url.Values.get]
    · have hne : k0 ≠ k := by
        intro e
        subst e
        exact hnd.1 (List.mem_map_of_mem Prod.fst h1)
      simp [url.Values.get, hne, ih hnd.2 h1]

theorem unhex_hexDigit (n : Nat) (h : n < 16) : url.unhex (url.hexDigit n) = some n := by
  unfold url.unhex url.hexDigit
  by_cases h10 : n < 10
  · have h1 : 48 ≤ 48 + n ∧ 48 + n ≤ 57 := by omega
    simp [h10, h1]
  · have h1 : ¬ (48 ≤ 55 + n ∧ 55 + n ≤ 57) := by omega
    have h2 : ¬ (97 ≤ 55 + n ∧ 55 + n ≤ 102) := by omega
    have h3 : 65 ≤ 55 + n ∧ 55 + n ≤ 70 := by omega
    simp only [h10, if_false, h1, h2, h3, if_true, and_self]
    congr 1
    omega

theorem unreserved_ne (b : Nat) (h : url.unreserved b = true) : b ≠ 37 ∧ b ≠ 43 := by
  constructor <;> (intro e; subst e; simp [url.unreserved] at h)

theorem unescape_escapeByte (b : Nat) (rest : List Nat) (hb : b < 256) :
    url.unescapeBytes (url.escapeByte b ++ rest) =
      (url.unescapeBytes rest).map (fun t => b :: t) := by
  unfold url.escapeByte
  by_cases hu : url.unreserved b = true
  · obtain ⟨h1, h2⟩ := unreserved_ne b hu
    simp only [hu, if_true, List.singleton_append]
    rw [url.unescapeBytes.eq_def]
    simp only [h1, h2, if_false]
  · by_cases h32 : b = 32
    · subst h32
      simp only [hu, if_false, if_true, List.singleton_append]
      rw [url.unescapeBytes.eq_def]
      simp
    · simp only [hu, h32, if_false, List.cons_append, List.nil_append]
      rw [url.unescapeBytes.eq_def]
      have e : b / 16 * 16 + b % 16 = b := by omega
      have u1 := unhex_hexDigit (b / 16) (by omega)
      have u2 := unhex_hexDigit (b % 16) (by omega)
      cases hr : url.unescapeBytes rest <;> simp [u1, u2, hr, e]

/-- Unescaping what `url.QueryEscape` wrote gives back the bytes. -/
theorem unescape_escapeBytes (bs : List Nat) (hb : ∀ b ∈ bs, b < 256) :
    url.unescapeBytes (url.escapeBytes bs) = some bs := by
  induction bs with
  | nil => rfl
  | cons b tl ih =>
    have e : url.escapeBytes (b :: tl) = url.escapeByte b ++ url.escapeBytes tl := by
      simp [url.escapeBytes]
    rw [e, unescape_escapeByte b _ (hb b (List.mem_cons_self _ _)),
      ih (fun x hx => hb x (List.mem_cons_of_mem _ hx))]
    rfl

theorem splitBytes_ne_nil (sep : Nat) (bs : List Nat) : splitBytes sep bs ≠ [] := by
  cases bs with
  | nil => simp [splitBytes]
  | cons b rest =>
    simp only [splitBytes]
    split_ifs
    · simp
    · split <;> simp

/-- The pieces `splitBytes` gives have no separator in them, and joined by the
separator they give back the string. -/
theorem splitBytes_spec (sep : Nat) (bs : List Nat) :
    (∀ seg ∈ splitBytes sep bs, sep ∉ seg) ∧
      [sep].intercalate (splitBytes sep bs) = bs := by
  induction bs with
  | nil => simp [splitBytes, List.intercalate]
  | cons b rest ih =>
    obtain ⟨ih1, ih2⟩ := ih
    simp only [splitBytes]
    by_cases h : b = sep
    · subst h
      simp only [if_true]
      constructor
      · intro seg hs
        rcases List.mem_cons.1 hs with e | e
        · subst e; simp
        · exact ih1 seg e
      · cases hL : splitBytes b rest with
        | nil => exact absurd hL (splitBytes_ne_nil b rest)
        | cons s ss =>
          rw [hL] at ih2
          simp only [List.intercalate, List.intersperse, List.flatten] at ih2 ⊢
          simp [ih2]
    · simp only [h, if_false]
      cases hL : splitBytes sep rest with
      | nil => exact absurd hL (splitBytes_ne_nil sep rest)
      | cons s ss =>
        rw [hL] at ih1 ih2
        constructor
        · intro seg hs
          rcases List.mem_cons.1 hs with e | e
          · subst e
            intro hm
            rcases List.mem_cons.1 hm with e2 | e2
            · exact h e2.symm
            · exact ih1 s (List.mem_cons_self _ _) e2
          · exact ih1 seg (List.mem_cons_of_mem _ e)
        · cases ss with
          | nil =>
            simp only [List.intercalate, List.intersperse, List.flatten] at ih2 ⊢
            simp at ih2 ⊢
            exact ih2
          | cons s2 ss2 =>
            simp only [List.intercalate, List.intersperse, List.flatten] at ih2 ⊢
            simp at ih2 ⊢
            exact ih2

theorem mem_get_Add (m : url.Values) (k1 x k : List Nat) (v : List Nat) :
    v ∈ url.Values.get (url.Values.Add m k1 x) k ↔
      (v ∈ url.Values.get m k ∨ (k = k1 ∧ v = x)) := by
  rw [Values_get_Add]
  by_cases h : k = k1
  · simp [h]
  · simp [h]

theorem mem_get_parsePair (m : url.Values) (seg k v : List Nat) :
    v ∈ url.Values.get (url.parsePair m seg) k ↔
      (v ∈ url.Values.get m k ∨ wellFormedPair seg k v) := by
  unfold url.parsePair wellFormedPair
  by_cases h59 : 59 ∈ seg
  · simp [h59]
  · by_cases he : seg = []
    · simp [he]
    · simp only [h59, he, if_false]
      cases hk : url.unescapeBytes (cutBytes 61 seg).1 with
      | none => simp
      | some k1 =>
        cases hv : url.unescapeBytes (cutBytes 61 seg).2 with
        | none => simp
        | some v1 =>
          simp only [mem_get_Add]
          constructor
          · rintro (h | ⟨e1, e2⟩)
            · exact Or.inl h
            · exact Or.inr ⟨not_false, he, by rw [e1], by rw [e2]⟩
          · rintro (h | ⟨-, -, e1, e2⟩)
            · exact Or.inl h
            · exact Or.inr ⟨(Option.some.inj e1).symm, (Option.some.inj e2).symm⟩

theorem mem_get_foldl_parsePair (segs : List (List Nat)) (m : url.Values) (k v : List Nat) :
    v ∈ url.Values.get (segs.foldl url.parsePair m) k ↔
      (v ∈ url.Values.get m k ∨ ∃ seg ∈ segs, wellFormedPair seg k v) := by
  induction segs generalizing m with
  | nil => simp
  | cons s tl ih =>
    simp only [List.foldl_cons]
    rw [ih, mem_get_parsePair]
    constructor
    · rintro ((h | h) | ⟨seg, hs, hw⟩)
      · exact Or.inl h
      · exact Or.inr ⟨s, List.mem_cons_self _ _, h⟩
      · exact Or.inr ⟨seg, List.mem_cons_of_mem _ hs, hw⟩
    · rintro (h | ⟨seg, hs, hw⟩)
      · exact Or.inl (Or.inl h)
      · rcases List.mem_cons.1 hs with e | e
        · subst e
          exact Or.inl (Or.inr hw)
        · exact Or.inr ⟨seg, e, hw⟩

/-- What `url.ParseQuery` holds: a value stands under a key exactly when a
piece between two ampersands of the raw query is well formed and stands for
that key and value. -/
theorem mem_get_ParseQuery (raw : String) (k v : List Nat) :
    v ∈ url.Values.get (url.ParseQuery raw) k ↔
      ∃ seg ∈ splitBytes 38 (stringBytes raw), wellFormedPair seg k v := by
  unfold url.ParseQuery
  rw [mem_get_foldl_parsePair]
  simp [url.Values.get]

/-- What `cutBytes` gives: the part before has no separator; when the string
has a separator it is the part before, the separator and the part after, and
when it has none the part before is the whole string. -/
theorem cutBytes_spec (sep : Nat) (s : List Nat) :
    sep ∉ (cutBytes sep s).1 ∧
      (sep ∈ s → s = (cutBytes sep s).1 ++ sep :: (cutBytes sep s).2) ∧
      (sep ∉ s → cutBytes sep s = (s, [])) := by
  induction s with
  | nil => simp [cutBytes]
  | cons b rest ih =>
    obtain ⟨ih1, ih2, ih3⟩ := ih
    by_cases h : b = sep
    · subst h
      simp [cutBytes]
    · have hb : (b != sep) = true := by simpa using h
      have e : cutBytes sep (b :: rest) =
          (b :: (cutBytes sep rest).1, (cutBytes sep rest).2) := by
        simp [cutBytes, List.takeWhile_cons, List.dropWhile_cons, hb]
      rw [e]
      refine ⟨?_, ?_, ?_⟩
      · intro hm
        rcases List.mem_cons.1 hm with e2 | e2
        · exact h e2.symm
        · exact ih1 e2
      · intro hm
        have hm2 : sep ∈ rest := by
          rcases List.mem_cons.1 hm with e2 | e2
          · exact absurd e2.symm h
          · exact e2
        simp only [List.cons_append]
        rw [← ih2 hm2]
      · intro hm
        have hm2 : sep ∉ rest := fun x => hm (List.mem_cons_of_mem _ x)
        rw [ih3 hm2]

theorem Values_get_foldl_Add (p : List (String × String)) (q : url.Values) (kb : List Nat) :
    url.Values.get (p.foldl
        (fun q kv => url.Values.Add q (stringBytes kv.1) (stringBytes kv.2)) q) kb =
      url.Values.get q kb ++ addedValues (some p) kb := by
  induction p generalizing q with
  | nil => simp [addedValues, GoMap.entries]
  | cons hd tl ih =>
    simp only [List.foldl_cons]
    rw [ih, Values_get_Add]
    by_cases h : kb = stringBytes hd.1
    · subst h
      simp [addedValues, GoMap.entries, List.filter_cons]
    · have h2 : ¬ stringBytes hd.1 = kb := fun e => h e.symm
      simp [addedValues, GoMap.entries, List.filter_cons, h, h2]

theorem filter_key_of_nodup {α : Type} (p : List (String × α)) (k : String) (v : α)
    (hp : KeysNodup p) (hm : (k, v) ∈ p) :
    p.filter (fun kv => stringBytes kv.1 = stringBytes k) = [(k, v)] := by
  induction p with
  | nil => cases hm
  | cons hd tl ih =>
    obtain ⟨k1, v1⟩ := hd
    have hnd : k1 ∉ tl.map Prod.fst ∧ KeysNodup tl := by
      simpa [KeysNodup] using hp
    rcases List.mem_cons.1 hm with e | e
    · cases e
      have hnone : tl.filter (fun kv => stringBytes kv.1 = stringBytes k) = [] := by
        rw [List.filter_eq_nil_iff]
        intro kv hkv hb
        have e2 : kv.1 = k := stringBytes_injective _ _ (by simpa using hb)
        exact hnd.1 (e2 ▸ List.mem_map_of_mem Prod.fst hkv)
      simp [List.filter_cons, hnone]
    · have hne : ¬ stringBytes k1 = stringBytes k := by
        intro hb
        have e2 : k1 = k := stringBytes_injective _ _ hb
        exact hnd.1 (e2 ▸ List.mem_map_of_mem Prod.fst e)
      simp [List.filter_cons, hne, ih hnd.2 e]

theorem addedValues_of_get (query : GoMap String) (hwf : query.WF) (k v : String)
    (h : query.get k = some v) : addedValues query (stringBytes k) = [stringBytes v] := by
  cases query with
  | none => cases h
  | some p =>
    have hm : (k, v) ∈ p := mem_of_mapGet p k v h
    unfold addedValues
    simp only [GoMap.entries]
    rw [filter_key_of_nodup p k v hwf hm]
    rfl

theorem addedValues_of_not_key (query : GoMap String) (kb : List Nat)
    (h : ∀ kv ∈ query.entries, stringBytes kv.1 ≠ kb) : addedValues query kb = [] := by
  unfold addedValues
  rw [List.map_eq_nil_iff, List.filter_eq_nil_iff]
  intro kv hkv hb
  exact h kv hkv (by simpa using hb)

/-! ## The outbound query -/

/-- C9, refuted as stated.  The URL carries the pairs c=%zz, x=1;y=2 and a=1.
`(*URL).Query()` reads the last one alone: the escape %zz is not valid and a
piece with a semicolon is refused.  The outbound query is a=1&a=2, so the
other pre-existing pairs are removed. -/
theorem Do_query_keeps_parsed_values_counterexample :
    splitBytes 38 (stringBytes "c=%zz&x=1;y=2&a=1") =
      [stringBytes "c=%zz", stringBytes "x=1;y=2", stringBytes "a=1"] ∧
    url.ParseQuery "c=%zz&x=1;y=2&a=1" = [(stringBytes "a", [stringBytes "1"])] ∧
    (Request.Do.outbound demoTransport
      (Get "http://h/p?c=%zz&x=1;y=2&a=1" (some [("a", "2")]))).toOption.bind
        (fun p => p.1.toOption.map (fun out => out.URL.RawQuery)) = some "a=1&a=2" := by
  decide

/-- C9, amended.  In `Do` the values of the outbound query are, under every
key, the values `(*URL).Query()` reads out of the URL followed by the value
the request configures for that key, if any: a configured key adds its one
value, any other key adds none.  `(*URL).Query()` reads exactly the pieces
between ampersands that are not empty, hold no semicolon and whose key and
value unescape, so each of these stays in the outbound query and the other
pieces are dropped.  The raw query of the outbound request is the encoding of
these values, and unescaping what the encoding escaped gives back the
bytes. -/
theorem Do_query_keeps_parsed_values (r : Request) (hwf : r.query.WF) :
    (∀ req kb, url.Values.get (Request.Do.queryValues r req) kb =
      url.Values.get (url.ParseQuery req.URL.RawQuery) kb ++ addedValues r.query kb) ∧
    (∀ k v, r.query.get k = some v → addedValues r.query (stringBytes k) = [stringBytes v]) ∧
    (∀ kb, (∀ kv ∈ r.query.entries, stringBytes kv.1 ≠ kb) → addedValues r.query kb = []) ∧
    (∀ raw k v, v ∈ url.Values.get (url.ParseQuery raw) k ↔
      ∃ seg ∈ splitBytes 38 (stringBytes raw), wellFormedPair seg k v) ∧
    (∀ req seg k v, seg ∈ splitBytes 38 (stringBytes req.URL.RawQuery) →
      wellFormedPair seg k v → v ∈ url.Values.get (Request.Do.queryValues r req) k) ∧
    (∀ env b r1 req, Request.Do.bodyReader r = .ok (b, r1) →
      http.NewRequest env r1.method r1.url b = .ok req →
      ∃ out, Request.Do.outbound env r = .ok (.ok out, r1) ∧
        out.URL.RawQuery = url.Values.Encode (Request.Do.queryValues r req)) ∧
    (∀ bs, (∀ b ∈ bs, b < 256) → url.unescapeBytes (url.escapeBytes bs) = some bs) := by
  have hvals : ∀ req kb, url.Values.get (Request.Do.queryValues r req) kb =
      url.Values.get (url.ParseQuery req.URL.RawQuery) kb ++ addedValues r.query kb := by
    intro req kb
    unfold Request.Do.queryValues
    cases hq : r.query with
    | none => simp [GoMap.entries, addedValues]
    | some p => exact Values_get_foldl_Add p _ kb
  refine ⟨hvals, ?_, ?_, ?_, ?_, ?_, ?_⟩
  · intro k v h
    exact addedValues_of_get r.query hwf k v h
  · intro kb h
    exact addedValues_of_not_key r.query kb h
  · intro raw k v
    exact mem_get_ParseQuery raw k v
  · intro req seg k v hs hw
    rw [hvals]
    exact List.mem_append_left _ ((mem_get_ParseQuery _ k v).2 ⟨seg, hs, hw⟩)
  · intro env b r1 req hb hn
    refine ⟨Request.Do.setAuth r1 (Request.Do.addCookies env r1
      (Request.Do.setQuery r1 (Request.Do.setHeaders r1 req))), ?_, ?_⟩
    · simp only [Request.Do.outbound, hb, hn]
    · rw [setAuth_URL, addCookies_URL]
      obtain ⟨hd, e⟩ := bodyReader_frame r r1 b hb
      subst e
      show url.Values.Encode (Request.Do.queryValues _ _) = _
      unfold Request.Do.queryValues
      rw [setHeaders_URL]
  · intro bs hb
    exact unescape_escapeBytes bs hb

/-- C9, amended, at a URL whose query holds q=a%20b+c, z=%41 and a=1 and a
request configured with the key é and with a=2: a holds 1 then 2, and the raw
query of the request `Do` builds has the keys in byte order, the space as a
plus sign and the other reserved bytes in hexadecimal. -/
theorem Do_query_keeps_parsed_values_witness :
    url.Values.get (Request.Do.queryValues
      (Get "http://h/p?q=a%20b+c&z=%41&a=1" (some [("é", "x y&z=/~"), ("a", "2")]))
      { Method := "GET", URL := ⟨"", "", "http://h/p", "q=a%20b+c&z=%41&a=1", ""⟩,
        Header := [], Body := none })
      (stringBytes "a") = [stringBytes "1", stringBytes "2"] ∧
    (Request.Do.outbound demoTransport
      (Get "http://h/p?q=a%20b+c&z=%41&a=1" (some [("é", "x y&z=/~"), ("a", "2")]))).toOption.bind
        (fun p => p.1.toOption.map (fun out => out.URL.RawQuery)) =
      some "a=1&a=2&q=a+b+c&z=A&%C3%A9=x+y%26z%3D%2F~" :=
  ⟨((Do_query_keeps_parsed_values
      (Get "http://h/p?q=a%20b+c&z=%41&a=1" (some [("é", "x y&z=/~"), ("a", "2")]))
      (by decide)).1
      { Method := "GET", URL := ⟨"", "", "http://h/p", "q=a%20b+c&z=%41&a=1", ""⟩,
        Header := [], Body := none }
      (stringBytes "a")).trans (by decide), by decide⟩

/-! ## FORM bodies: encoding of single-valued maps -/

theorem foldl_Add_fresh (p : List (String × GoValue)) (acc : url.Values) (hp : KeysNodup p)
    (hd : ∀ k ∈ p.map Prod.fst, stringBytes k ∉ acc.map Prod.fst) :
    p.foldl (fun values kv =>
        url.Values.Add values (stringBytes kv.1) (stringBytes (fmt.Sprintf_v kv.2))) acc =
      acc ++ p.map (fun kv => (stringBytes kv.1, [stringBytes (fmt.Sprintf_v kv.2)])) := by
  induction p generalizing acc with
  | nil => simp
  | cons hd1 tl ih =>
    obtain ⟨k1, v1⟩ := hd1
    have hnd : k1 ∉ tl.map Prod.fst ∧ KeysNodup tl := by
      simpa [KeysNodup] using hp
    have hfresh : stringBytes k1 ∉ acc.map Prod.fst := hd k1 (by simp)
    simp only [List.foldl_cons]
    rw [Values_Add_fresh acc _ _ hfresh, ih _ hnd.2]
    · simp
    · intro k hk
      simp only [List.map_append, List.map_cons, List.map_nil, List.mem_append,
        List.mem_singleton, not_or]
      refine ⟨hd k (by simp [hk]), ?_⟩
      intro e
      have e2 : k = k1 := stringBytes_injective _ _ e
      subst e2
      exact hnd.1 hk

theorem flatMap_eq_map_of_singleton {α β : Type} (l : List α) (f : α → List β) (g : α → β)
    (h : ∀ x ∈ l, f x = [g x]) : l.flatMap f = l.map g := by
  induction l with
  | nil => rfl
  | cons a tl ih =>
    simp only [List.flatMap_cons, List.map_cons]
    rw [h a (List.mem_cons_self _ _), ih (fun x hx => h x (List.mem_cons_of_mem _ hx))]
    rfl

theorem sortByKey_keys {α : Type} (m : List (String × α)) :
    (sortByKey m).map (fun kv => stringBytes kv.1) =
      sortKeys (m.map (fun kv => stringBytes kv.1)) := by
  unfold sortByKey sortKeys
  exact List.map_insertionSort (fun a b : String × α => keyLE a.1 b.1)
    (fun a b : List Nat => bytesLE a b = true) (fun kv => stringBytes kv.1) m
    (fun _ _ _ _ => Iff.rfl)

theorem keysNodup_bytes {α : Type} (m : List (String × α)) (h : KeysNodup m) :
    (m.map (fun kv => stringBytes kv.1)).Nodup := by
  have e : m.map (fun kv => stringBytes kv.1) = (m.map Prod.fst).map stringBytes := by
    simp [List.map_map, Function.comp_def]
  rw [e]
  exact List.Nodup.map (fun a b => stringBytes_injective a b) h

theorem Encode_single_valued (ps : List (String × String)) (hp : KeysNodup ps) :
    url.Values.Encode (ps.map (fun kv => (stringBytes kv.1, [stringBytes kv.2]))) =
      formOfPairs ps := by
  unfold url.Values.Encode url.Values.pieces formOfPairs
  congr 1
  have hk : (ps.map (fun kv => (stringBytes kv.1, [stringBytes kv.2]))).map Prod.fst =
      ps.map (fun kv => stringBytes kv.1) := by
    simp [List.map_map, Function.comp_def]
  rw [hk, ← sortByKey_keys ps, List.flatMap_map]
  apply flatMap_eq_map_of_singleton
  intro kv hkv
  have hmem : kv ∈ ps := (List.mem_insertionSort _).1 hkv
  have hnd : ((ps.map (fun kv => (stringBytes kv.1, [stringBytes kv.2]))).map Prod.fst).Nodup := by
    rw [hk]
    exact keysNodup_bytes ps hp
  have hget : url.Values.get (ps.map (fun kv => (stringBytes kv.1, [stringBytes kv.2])))
      (stringBytes kv.1) = [stringBytes kv.2] :=
    Values_get_of_mem _ _ _ hnd
      (List.mem_map_of_mem (fun kv => (stringBytes kv.1, [stringBytes kv.2])) hmem)
  simp [hget]

theorem structPairs_keys (fs : List (Field GoValue)) :
    (fs.map (fun f => (strings.ToLower f.name, GoValue.str (fmt.Sprintf_v f.value)))).map
      Prod.fst = (structPairs fs).map Prod.fst := by
  simp [structPairs, List.map_map, Function.comp_def]

/-- The list `sortByKey` gives is a permutation of the entries in which no key
is before an earlier key in the lexicographic order of the bytes. -/
theorem sortByKey_sorted {α : Type} (m : List (String × α)) :
    (sortByKey m).Perm m ∧
      List.Pairwise (fun a b =>
        ¬ List.Lex (fun x y : Nat => x < y) (stringBytes b.1) (stringBytes a.1)) (sortByKey m) := by
  refine ⟨List.perm_insertionSort _ m, ?_⟩
  haveI : IsTotal (String × α) (fun a b => keyLE a.1 b.1) :=
    ⟨fun a b => bytesLE_total _ _⟩
  haveI : IsTrans (String × α) (fun a b => keyLE a.1 b.1) :=
    ⟨fun a b c => bytesLE_trans _ _ _⟩
  have hs : List.Sorted (fun a b : String × α => keyLE a.1 b.1) (sortByKey m) :=
    List.sorted_insertionSort _ m
  exact List.Pairwise.imp (fun {a b} h => (bytesLE_iff_not_lex _ _).1 h) hs

/-! ## FORM bodies from struct payloads -/

/-- C6, refuted as stated.  A struct with the fields Foo = "a" and FOO = "b",
both exported, stands for the pairs (foo, a) and (foo, b), whose URL-encoded
form is foo=a&foo=b; the request serializes to foo=b.  The same holds outside
ASCII: the fields AÄ = "x" and Aä = "y" both lower-case to aä, and the request
serializes to the second pair alone. -/
theorem Post_form_struct_counterexample :
    formOfPairs (structPairs [⟨"Foo", true, .str "a"⟩, ⟨"FOO", true, .str "b"⟩]) =
      "foo=a&foo=b" ∧
    (Post "http://h/form" none FORM
      (.struct [⟨"Foo", true, .str "a"⟩, ⟨"FOO", true, .str "b"⟩])).toOption.bind
        (fun r => r.prepareRequestBody.toOption.bind Prod.fst) = some "foo=b" ∧
    formOfPairs (structPairs [⟨"AÄ", true, .str "x"⟩, ⟨"Aä", true, .str "y"⟩]) =
      "a%C3%A4=x&a%C3%A4=y" ∧
    (Post "http://h/form" none FORM
      (.struct [⟨"AÄ", true, .str "x"⟩, ⟨"Aä", true, .str "y"⟩])).toOption.bind
        (fun r => r.prepareRequestBody.toOption.bind Prod.fst) = some "a%C3%A4=y" := by
  decide

/-- C6, amended.  For a struct payload whose fields are all exported and whose
field names lower-case to pairwise distinct keys, `Post(url, q, FORM, s)`
serializes to the URL-encoded form of the pairs (lower-cased field name, text
of the field value), keys ascending, joined by an ampersand, and sets
Content-Type to application/x-www-form-urlencoded.  The pairs are listed as a
permutation in which no key is before an earlier key in the lexicographic
order of the bytes, and unescaping what the form escaped gives back the
bytes. -/
theorem Post_form_struct (u : String) (q : GoMap String) (fs : List (Field GoValue))
    (hex : ∀ f ∈ fs, f.exported = true) (hnd : KeysNodup (structPairs fs)) :
    (∃ r r1, Post u q FORM (.struct fs) = .ok r ∧
      r.prepareRequestBody = .ok (some (formOfPairs (structPairs fs)), r1) ∧
      r1.headers.get "Content-Type" = some "application/x-www-form-urlencoded") ∧
    (sortByKey (structPairs fs)).Perm (structPairs fs) ∧
    List.Pairwise (fun a b =>
      ¬ List.Lex (fun x y : Nat => x < y) (stringBytes b.1) (stringBytes a.1))
      (sortByKey (structPairs fs)) ∧
    (∀ bs, (∀ b ∈ bs, b < 256) → url.unescapeBytes (url.escapeBytes bs) = some bs) := by
  refine ⟨?_, (sortByKey_sorted _).1, (sortByKey_sorted _).2, unescape_escapeBytes⟩
  have hnd2 : KeysNodup (fs.map (fun f =>
      (strings.ToLower f.name, GoValue.str (fmt.Sprintf_v f.value)))) := by
    unfold KeysNodup at hnd ⊢
    rw [structPairs_keys]
    exact hnd
  have hdata : Request.addDataAsStruct.loop fs [] = .ok (fs.map (fun f =>
      (strings.ToLower f.name, GoValue.str (fmt.Sprintf_v f.value)))) := by
    rw [addDataAsStruct_loop_exported fs [] hex, mapMerge_fresh _ [] hnd2 (by simp)]
    rfl
  have hpost : ∃ r, Post u q FORM (.struct fs) = .ok r ∧ r.headers = some [] ∧
      r.ctype = FORM ∧ r.data = some (fs.map (fun f =>
        (strings.ToLower f.name, GoValue.str (fmt.Sprintf_v f.value)))) := by
    refine ⟨{ Request.zero with
      url := u, headers := some [], cookies := some [], method := POST, query := q,
      ctype := FORM, isUseBaseAuth := false,
      data := some (fs.map (fun f =>
        (strings.ToLower f.name, GoValue.str (fmt.Sprintf_v f.value)))) }, ?_, rfl, rfl, rfl⟩
    simp only [Post, Request.Body, Request.addDataAsStruct, Request.zero, hdata]
  obtain ⟨r, hr, hh, hc, hd⟩ := hpost
  refine ⟨r, { r with headers := some (mapSet [] "Content-Type"
    "application/x-www-form-urlencoded") }, hr, ?_, ?_⟩
  · rw [prepareRequestBody_form r [] hh hc]
    have hv : r.getURLValues =
        (structPairs fs).map (fun kv => (stringBytes kv.1, [stringBytes kv.2])) := by
      unfold Request.getURLValues
      rw [hd]
      simp only [GoMap.entries]
      rw [foldl_Add_fresh _ [] hnd2 (by simp)]
      simp [structPairs, List.map_map, Function.comp_def, fmt.Sprintf_v]
    rw [hv, Encode_single_valued _ hnd]
  · exact mapGet_mapSet_self [] _ _

/-- C6, amended, at the struct of the test suite, with the single field
Foo = "bar", whose payload is foo=bar, and at a struct with the fields Foo,
Baz, Éa and ÄB: the names are lower-cased, É and Ä included, the keys come in
byte order, a space is written as a plus sign and the other reserved bytes in
hexadecimal. -/
theorem Post_form_struct_witness :
    (∃ r r1, Post "http://h/form" none FORM (.struct [⟨"Foo", true, .str "bar"⟩]) = .ok r ∧
      r.prepareRequestBody = .ok (some "foo=bar", r1) ∧
      r1.headers.get "Content-Type" = some "application/x-www-form-urlencoded") ∧
    (∃ r r1, Post "http://h/form" none FORM (.struct [⟨"Foo", true, .str "bar"⟩,
        ⟨"Baz", true, .int 3⟩, ⟨"Éa", true, .str "a b&c=d/é~"⟩, ⟨"ÄB", true, .bool true⟩]) =
        .ok r ∧
      r.prepareRequestBody =
        .ok (some "baz=3&foo=bar&%C3%A4b=true&%C3%A9a=a+b%26c%3Dd%2F%C3%A9~", r1) ∧
      r1.headers.get "Content-Type" = some "application/x-www-form-urlencoded") := by
  have h1 := (Post_form_struct "http://h/form" none [⟨"Foo", true, .str "bar"⟩]
    (by decide) (by decide)).1
  have h2 := (Post_form_struct "http://h/form" none [⟨"Foo", true, .str "bar"⟩,
    ⟨"Baz", true, .int 3⟩, ⟨"Éa", true, .str "a b&c=d/é~"⟩, ⟨"ÄB", true, .bool true⟩]
    (by decide) (by decide)).1
  have e1 : formOfPairs (structPairs [⟨"Foo", true, .str "bar"⟩]) = "foo=bar" := by decide
  have e2 : formOfPairs (structPairs [⟨"Foo", true, .str "bar"⟩,
      ⟨"Baz", true, .int 3⟩, ⟨"Éa", true, .str "a b&c=d/é~"⟩, ⟨"ÄB", true, .bool true⟩]) =
      "baz=3&foo=bar&%C3%A4b=true&%C3%A9a=a+b%26c%3Dd%2F%C3%A9~" := by decide
  rw [e1] at h1
  rw [e2] at h2
  exact ⟨h1, h2⟩

/-! ## JSON bodies from map payloads -/

/-- C5, refuted as stated.  The nil `map[string]interface{}` is a mapping with
no entry, whose JSON object is the empty object; `Post(url, nil, JSON, m)`
leaves the body fields nil and serializes to `null`. -/
theorem Post_json_map_object_counterexample :
    jsonObjectOfStrings [] = "\x7b\x7d" ∧
    (Post "http://h/json" none JSON (.mapSI none)).toOption.bind
        (fun r => r.prepareRequestBody.toOption.bind Prod.fst) = some "null" := by
  decide

/-- C5, amended.  For a `map[string]interface{}` that is not nil and whose
values are strings, `Post(url, q, JSON, m)` serializes to the JSON object of
`m`: between braces, one member for each entry, key and value written as JSON
string literals with a colon between them, the members joined by commas and
listed as a permutation of the entries in which no key is before an earlier
key in the lexicographic order of the bytes.  Content-Type is then
application/json.  The nil map serializes to `null`.  The test's map gives
the bytes of the test; a quote, a backslash, a line feed, a carriage return, a
tab, other control characters, the characters < > & and the separators U+2028
and U+2029 are escaped, every other character is written as it is. -/
theorem Post_json_map_object (u : String) (q : GoMap String) (l : List (String × String)) :
    (∃ r r1, Post u q JSON (.mapSI (some (stringEntries l))) = .ok r ∧
      r.prepareRequestBody = .ok (some (jsonObjectOfStrings l), r1) ∧
      r1.headers.get "Content-Type" = some "application/json") ∧
    (sortByKey l).Perm l ∧
    List.Pairwise (fun a b =>
      ¬ List.Lex (fun x y : Nat => x < y) (stringBytes b.1) (stringBytes a.1)) (sortByKey l) ∧
    (∃ r r1, Post u q JSON (.mapSI none) = .ok r ∧
      r.prepareRequestBody = .ok (some "null", r1)) ∧
    jsonObjectOfStrings [("foo", "bar")] = "\x7b\"foo\":\"bar\"\x7d" ∧
    jsonObjectOfStrings [("b", "1"), ("a", "2"), ("ab", "3"), ("", "4"), ("B", "5"),
        ("é", "6"), ("z", "7"), ("aé", "8")] =
      "\x7b\"\":\"4\",\"B\":\"5\",\"a\":\"2\",\"ab\":\"3\",\"aé\":\"8\",\"b\":\"1\",\"z\":\"7\",\"é\":\"6\"\x7d" ∧
    json.quote "a\"b\\c\n\r\t\x01\x1f<>&\u2028\u2029\x7f é😀/" =
      "\"a\\\"b\\\\c\\n\\r\\t\\u0001\\u001f\\u003c\\u003e\\u0026\\u2028\\u2029\x7f é😀/\"" := by
  refine ⟨?_, (sortByKey_sorted l).1, (sortByKey_sorted l).2, ⟨_, _, rfl, rfl⟩,
    by decide, by decide, by decide⟩
  obtain ⟨r, hr, hh, hc, hd⟩ : ∃ r, Post u q JSON (.mapSI (some (stringEntries l))) = .ok r ∧
      r.headers = some [] ∧ r.ctype = JSON ∧ r.data = some (stringEntries l) :=
    ⟨_, rfl, rfl, rfl, rfl⟩
  refine ⟨r, { r with headers := some (mapSet [] "Content-Type" "application/json") },
    hr, ?_, rfl⟩
  rw [prepareRequestBody_json r [] hh hc, hd, Marshal_stringEntries]

/-- C5, amended, at the map of the test suite, with the single entry foo = "bar":
the payload is the bytes of the test and Content-Type is application/json. -/
theorem Post_json_map_object_witness :
    ∃ r r1, Post "http://h/json" none JSON (.mapSI (some [("foo", .str "bar")])) = .ok r ∧
      r.prepareRequestBody = .ok (some "\x7b\"foo\":\"bar\"\x7d", r1) ∧
      r1.headers.get "Content-Type" = some "application/json" := by
  have h := Post_json_map_object "http://h/json" none [("foo", "bar")]
  have h1 := h.1
  rw [h.2.2.2.2.1] at h1
  exact h1

/-! ## Map payloads of Body -/

/-- C13, at the failing input, and what holds beside it.  `Body` panics on a
`map[string]string`, a string-keyed mapping whose type the assertion in `Body`
rejects, so nothing is merged.  On a `map[string]interface{}` `Body` returns,
every key of the payload holds the value the payload gives it, every other key
holds its prior value, the keys of the body fields are exactly the prior keys
together with the keys of the payload, and nothing but the body fields
changes. -/
theorem Body_map_payload :
    ({ (New POST) with data := some [("a", .int 1)] } : Request).Body
      (.mapSS (some [("a", "2"), ("b", "3")])) = .error .interfaceConversion ∧
    (∀ (r : Request) (m : GoMap GoValue), m.WF →
      ∃ r1, r.Body (.mapSI m) = .ok r1 ∧ r1 = { r with data := r1.data } ∧
        (∀ k v, m.get k = some v → r1.data.get k = some v) ∧
        (∀ k, m.get k = none → r1.data.get k = r.data.get k) ∧
        (∀ k, (∃ v, r1.data.get k = some v) ↔
          ((∃ v, r.data.get k = some v) ∨ ∃ v, m.get k = some v))) ∧
    (({ (New POST) with data := some [("a", .int 1), ("b", .int 2)] } : Request).Body
      (.mapSI (some [("b", .int 3), ("c", .str "4")]))).toOption.map
        (fun r => r.data.entries.map (fun kv => (kv.1, fmt.Sprintf_v kv.2))) =
      some [("a", "1"), ("b", "3"), ("c", "4")] := by
  refine ⟨rfl, ?_, by decide⟩
  intro r m hm
  have key : ∀ k, (r.addDataAsMap m).data.get k = firstSome (m.get k) (r.data.get k) := by
    intro k
    unfold Request.addDataAsMap
    cases hd : r.data with
    | none =>
      show m.get k = firstSome (m.get k) none
      cases m.get k <;> rfl
    | some d =>
      show mapGet (mapMerge d m.entries) k = firstSome (m.get k) (mapGet d k)
      rw [mapGet_mapMerge m.entries d k hm]
      cases m <;> rfl
  refine ⟨r.addDataAsMap m, rfl, ?_, ?_, ?_, ?_⟩
  · unfold Request.addDataAsMap
    cases r.data <;> rfl
  · intro k v hk
    rw [key, hk]
    rfl
  · intro k hk
    rw [key, hk]
    rfl
  · intro k
    rw [key]
    cases hk : m.get k with
    | none => simp [firstSome]
    | some v => simp [firstSome]

end Networker
